import Mathlib

/-!
# NutellaDB — verification of the specification against the source

Shallow embedding of the core algorithms of the NutellaDB repository:
the persistent B-tree (packages `btree` and `db/btree`), the delta codec
and object store (`dbcli/interface.go`), the snapshot index, the ignore
patterns, the pack writer and the multi-collection LRU cache
(`cache/cache.go`).  Filesystem state is modelled as explicit association
lists; machine integers are `Nat` with explicit truncation where the Go
code truncates; fallible paths return `Option`/`Except`.
-/

set_option maxHeartbeats 1000000

namespace NutellaDB

/-! ## Ignore patterns (`dbcli/interface.go`: `loadGitignore`, `shouldIgnore`) -/

/-- Model of Go `path/filepath.Match` (pattern against a name):
`*` matches any run of non-separator characters, `?` a single
non-separator character, other characters literally.  Character classes
and escapes, which no NutellaDB caller uses, are elided. -/
def globMatchL : List Char → List Char → Bool
  | [], s => s.isEmpty
  | c :: ps, s =>
    if c = '*' then
      globMatchL ps s ||
        (match s with
         | [] => false
         | d :: s1 => if d = '/' then false else globMatchL (c :: ps) s1)
    else
      match s with
      | [] => false
      | d :: s1 =>
        if c = '?' then decide (d ≠ '/') && globMatchL ps s1
        else decide (c = d) && globMatchL ps s1
termination_by p s => p.length + s.length

/-- `filepath.Match(pattern, name)` on strings (error branch of the Go
API returns `matched = false`, so a `Bool` result is faithful). -/
def globMatch (pattern path : String) : Bool :=
  globMatchL pattern.toList path.toList

/-- Helper for `strings.Contains`: does `sub` occur in `s`? -/
def containsSub : List Char → List Char → Bool
  | s, sub =>
    sub.isPrefixOf s ||
      (match s with
       | [] => false
       | _ :: t => containsSub t sub)

/-- Go `strings.Contains(s, sub)`. -/
def strContains (s sub : String) : Bool :=
  containsSub s.toList sub.toList

/-- `shouldIgnore` from `dbcli/interface.go`: scan the patterns, return
true at the first glob match or substring hit. -/
def shouldIgnore (relPath : String) : List String → Bool
  | [] => false
  | p :: rest =>
    if globMatch p relPath || strContains relPath p then true
    else shouldIgnore relPath rest

/-- The accumulation loop of `loadGitignore`: trim each line, skip the
empty ones and the ones starting with `#`. -/
def collectPatterns : List String → List String
  | [] => []
  | line :: rest =>
    let l := line.trim
    if l = "" || l.startsWith "#" then collectPatterns rest
    else l :: collectPatterns rest

/-- `loadGitignore` from `dbcli/interface.go`; `none` models the missing
`.nutignore` file (the `os.IsNotExist` branch). -/
def loadGitignore (file : Option String) : List String :=
  match file with
  | none => []
  | some data => collectPatterns (data.splitOn "\n")

/-! ## LRU cache (`cache/cache.go`)

The Go cache keeps a doubly linked recency list (`LruList`, front = most
recent), and `CacheMap : collection → key → *list.Element`.  The list is
modelled as `List CacheItem` (head = front); `CacheMap` as an association
list from collection name to the set of keys present (the element
pointers are recovered by searching the list — unique in every state the
operations produce). `CacheData` only mirrors `CacheMap` for JSON
serialization and carries no extra information, so it is elided. -/

structure CacheItem where
  collection : String
  key : String
  value : String
deriving DecidableEq, Repr

structure CacheSt where
  maxSize : Nat
  lruList : List CacheItem
  cacheMap : List (String × List String)
deriving DecidableEq, Repr

/-- Go map lookup `m[c]` (second result of the comma-ok form). -/
def mapLookup (m : List (String × List String)) (c : String) : Option (List String) :=
  match m with
  | [] => none
  | (c1, ks) :: rest => if c1 = c then some ks else mapLookup rest c

/-- Go map store `m[c] = ks`. -/
def mapSet (m : List (String × List String)) (c : String) (ks : List String) :
    List (String × List String) :=
  match m with
  | [] => [(c, ks)]
  | (c1, ks1) :: rest => if c1 = c then (c, ks) :: rest else (c1, ks1) :: mapSet rest c ks

/-- Go map `delete(m, c)`. -/
def mapDelete (m : List (String × List String)) (c : String) :
    List (String × List String) :=
  match m with
  | [] => []
  | (c1, ks1) :: rest => if c1 = c then rest else (c1, ks1) :: mapDelete rest c

/-- `totalItems` loop of `set`/`SetMaxSize`: sum of all bucket sizes. -/
def totalCount (m : List (String × List String)) : Nat :=
  (m.map (fun e => e.2.length)).sum

/-- The `(collection, key)` pair a list element stands for. -/
def pairsOf (l : List CacheItem) : List (String × String) :=
  l.map (fun it => (it.collection, it.key))

/-- Recover the `*list.Element` behind `CacheMap[c][k]`. -/
def findItem (l : List CacheItem) (c k : String) : Option CacheItem :=
  l.find? (fun it => it.collection == c && it.key == k)

/-- `LruList.MoveToFront` of the element for `(c, k)`. -/
def moveToFront (l : List CacheItem) (c k : String) : List CacheItem :=
  match findItem l c k with
  | none => l
  | some it => it :: l.eraseP (fun it2 => it2.collection == c && it2.key == k)

/-- `MoveToFront` combined with the in-place `item.Value = value`
assignment of `set`'s update branch. -/
def moveToFrontUpd (l : List CacheItem) (c k v : String) : List CacheItem :=
  match findItem l c k with
  | none => l
  | some it =>
    CacheItem.mk it.collection it.key v ::
      l.eraseP (fun it2 => it2.collection == c && it2.key == k)

/-- `get` from `cache/cache.go`: on a hit promote the element to the
front and return it. -/
def cacheGet (st : CacheSt) (c k : String) : Option CacheItem × CacheSt :=
  match mapLookup st.cacheMap c with
  | none => (none, st)
  | some ks =>
    if k ∈ ks then
      match findItem st.lruList c k with
      | some it => (some it, CacheSt.mk st.maxSize (moveToFront st.lruList c k) st.cacheMap)
      | none => (none, st)
    else (none, st)

/-- `evictLRU` from `cache/cache.go`: drop the back of the list, remove
its key from its bucket and the bucket itself when it becomes empty. -/
def evictLRU (st : CacheSt) : CacheSt :=
  match st.lruList.getLast? with
  | none => st
  | some it =>
    let l := st.lruList.dropLast
    let ks := (mapLookup st.cacheMap it.collection).getD []
    let ks1 := ks.erase it.key
    let m :=
      if ks1.isEmpty then mapDelete st.cacheMap it.collection
      else mapSet st.cacheMap it.collection ks1
    CacheSt.mk st.maxSize l m

/-- `set` from `cache/cache.go`: create the bucket if missing, update in
place on an existing key, otherwise push a fresh item to the front and
evict once if the total count exceeds `MaxSize`. -/
def cacheSet (st : CacheSt) (c k v : String) : CacheSt :=
  let m0 :=
    match mapLookup st.cacheMap c with
    | none => mapSet st.cacheMap c []
    | some _ => st.cacheMap
  let ks := (mapLookup m0 c).getD []
  if k ∈ ks then
    CacheSt.mk st.maxSize (moveToFrontUpd st.lruList c k v) m0
  else
    let l1 := CacheItem.mk c k v :: st.lruList
    let m1 := mapSet m0 c (k :: ks)
    let st1 := CacheSt.mk st.maxSize l1 m1
    if st.maxSize < totalCount m1 then evictLRU st1 else st1

/-- `InsertInCache`: delegates to `set`, whose every path returns `nil`. -/
def InsertInCache (st : CacheSt) (c k v : String) : Except String CacheSt :=
  Except.ok (cacheSet st c k v)

/-- `FindInCache`: `get`, turning a miss into an error. -/
def FindInCache (st : CacheSt) (c k : String) : Except String String × CacheSt :=
  match cacheGet st c k with
  | (none, st1) => (Except.error "failed to find key", st1)
  | (some it, st1) => (Except.ok it.value, st1)

/-- `UpdateInCache`: `get` first, erroring on a miss, then `set`. -/
def UpdateInCache (st : CacheSt) (c k v : String) : Except String CacheSt :=
  match cacheGet st c k with
  | (none, _) => Except.error "key not found"
  | (some _, st1) => Except.ok (cacheSet st1 c k v)

/-- `DeleteFromCache`: error on a missing collection or key, else unlink
the element and clean up an emptied bucket. -/
def DeleteFromCache (st : CacheSt) (c k : String) : Except String CacheSt :=
  match mapLookup st.cacheMap c with
  | none => Except.error "failed to find collection"
  | some ks =>
    if k ∈ ks then
      let l := st.lruList.eraseP (fun it => it.collection == c && it.key == k)
      let ks1 := ks.erase k
      let m := if ks1.isEmpty then mapDelete st.cacheMap c else mapSet st.cacheMap c ks1
      Except.ok (CacheSt.mk st.maxSize l m)
    else Except.error "key not found in collection"

/-- `NewCache(maxSize)`. -/
def newCache (n : Nat) : CacheSt := CacheSt.mk n [] []

/-- The operations claim CACHE-LRU ranges over. -/
inductive COp where
  | ins (c k v : String)
  | find (c k : String)

def stepC (st : CacheSt) : COp → CacheSt
  | COp.ins c k v => cacheSet st c k v
  | COp.find c k => (cacheGet st c k).2

def runC (st : CacheSt) (ops : List COp) : CacheSt :=
  ops.foldl stepC st

/-- The structural well-formedness every state produced by the cache
operations enjoys: collection names and bucket keys are duplicate-free,
`CacheMap` indexes exactly the elements of the recency list, and the
item count is within `MaxSize`. -/
def CacheInv (st : CacheSt) : Prop :=
  (st.cacheMap.map Prod.fst).Nodup ∧
  (pairsOf st.lruList).Nodup ∧
  totalCount st.cacheMap = st.lruList.length ∧
  st.lruList.length ≤ st.maxSize ∧
  (∀ it ∈ st.lruList, ∃ ks, mapLookup st.cacheMap it.collection = some ks ∧ it.key ∈ ks) ∧
  (∀ c ks, mapLookup st.cacheMap c = some ks →
    ks.Nodup ∧ ∀ k ∈ ks, (c, k) ∈ pairsOf st.lruList)

/-! ## Persistent B-tree (packages `btree` and `db/btree`)

One JSON file per node plus the in-process `nodeCache`; since every
pointer mutation of the Go code is applied to the cached node object,
the cache is the semantic truth and both it and the page files are
modelled as one association list `store : id ↦ node` (every mutation is
written through immediately, mirroring pointer visibility).  Key
comparison is Go's byte-wise string order, which agrees with Lean's
`String` order on the ASCII keys used here.  Recursive descents carry
explicit fuel; `none` signals fuel exhaustion and never arises in the
executions below.  Go's out-of-range slice indexing panics; the `getD`
defaults stand in for it and are never consulted on the guarded paths.
The delete path follows `btree/kv_delete.go` (the self-healing variant);
`db/btree/btree.go` is the same code minus the missing-file branches,
which never fire on a complete store. -/

/-- Byte-wise lexicographic order of Go string comparison (`<`), which on
code points coincides with UTF-8 byte order for the ASCII keys used
here; structural, so that the kernel can evaluate it. -/
def charListLt : List Char → List Char → Bool
  | [], [] => false
  | [], _ :: _ => true
  | _ :: _, [] => false
  | c :: cs, d :: ds => if c < d then true else if d < c then false else charListLt cs ds

def strLt (a b : String) : Bool :=
  charListLt a.toList b.toList

structure KV where
  key : String
  value : String
deriving DecidableEq, Repr

structure BNode where
  id : Nat
  isLeaf : Bool
  keys : List KV
  children : List Nat
deriving DecidableEq, Repr

structure BState where
  store : List (Nat × BNode)
  rootID : Nat
  order : Nat
  nextID : Nat
deriving DecidableEq, Repr

def kv0 : KV := KV.mk "" ""

/-- `loadNode` (cache hit or page file read). -/
def loadNode (s : List (Nat × BNode)) (i : Nat) : Option BNode :=
  match s with
  | [] => none
  | (j, n) :: rest => if j = i then some n else loadNode rest i

/-- `saveNode`: store the node under its id. -/
def saveNode (s : List (Nat × BNode)) (n : BNode) : List (Nat × BNode) :=
  match s with
  | [] => [(n.id, n)]
  | (j, m) :: rest => if j = n.id then (n.id, n) :: rest else (j, m) :: saveNode rest n

/-- `deleteNode`: remove the page file and cache entry. -/
def deleteNodeStore (s : List (Nat × BNode)) (i : Nat) : List (Nat × BNode) :=
  match s with
  | [] => []
  | (j, m) :: rest => if j = i then rest else (j, m) :: deleteNodeStore rest i

/-- `nodeExists`. -/
def nodeExists (s : List (Nat × BNode)) (i : Nat) : Bool :=
  (loadNode s i).isSome

/-- Insertion at an index (`append` + `copy` + assignment idiom). -/
def insertAt {α : Type} (l : List α) (i : Nat) (a : α) : List α :=
  l.take i ++ a :: l.drop i

/-- Removal at an index (`append(l[:i], l[i+1:]...)`). -/
def removeAt {α : Type} (l : List α) (i : Nat) : List α :=
  l.take i ++ l.drop (i + 1)

/-- The forward scan `for i < len(keys) && key > keys[i].Key`. -/
def scanIdx (keys : List KV) (key : String) : Nat :=
  match keys with
  | [] => 0
  | kv :: rest => if strLt kv.key key then scanIdx rest key + 1 else 0

/-- The backward scan of `insertNonFull`:
`i := len-1; for i >= 0 && key < keys[i].Key { i-- }; i++`. -/
def insPos (keys : List KV) (key : String) : Nat :=
  keys.length - (keys.reverse.takeWhile (fun kv => strLt key kv.key)).length

/-- Go's `make` + `copy` pair: `n` slots, source truncated or the excess
left at the zero value. -/
def goMakeKV (src : List KV) (n : Nat) : List KV :=
  src.take n ++ List.replicate (n - src.length) kv0

def goMakeNat (src : List Nat) (n : Nat) : List Nat :=
  src.take n ++ List.replicate (n - src.length) 0

/-- `splitChild(parent, index, child)`: allocate a right sibling, move
the upper `t-1` keys (and `t` children) into it, promote the middle key.
Returns the new state together with the updated parent object (the Go
caller keeps using its pointer). -/
def splitChild (st : BState) (parent : BNode) (index : Nat) (child : BNode) :
    BState × BNode :=
  let t := st.order
  let nid := st.nextID
  let newChildKeys := goMakeKV (child.keys.drop t) (t - 1)
  let newChildChildren :=
    if child.isLeaf then [] else goMakeNat (child.children.drop t) t
  let childChildren := if child.isLeaf then child.children else child.children.take t
  let middleKey := child.keys.getD (t - 1) kv0
  let child1 := BNode.mk child.id child.isLeaf (child.keys.take (t - 1)) childChildren
  let newChild := BNode.mk nid child.isLeaf newChildKeys newChildChildren
  let parent1 := BNode.mk parent.id parent.isLeaf
    (insertAt parent.keys index middleKey)
    (insertAt parent.children (index + 1) nid)
  let store1 := saveNode (saveNode (saveNode st.store parent1) child1) newChild
  (BState.mk store1 st.rootID st.order (st.nextID + 1), parent1)

/-- `insertNonFull`. -/
def insertNonFull (st : BState) (node : BNode) (key value : String) :
    Nat → Option BState
  | 0 => none
  | fuel + 1 =>
    let i := insPos node.keys key
    if i > 0 ∧ i ≤ node.keys.length ∧ (node.keys.getD (i - 1) kv0).key = key then
      let node1 := BNode.mk node.id node.isLeaf
        (node.keys.set (i - 1) (KV.mk (node.keys.getD (i - 1) kv0).key value)) node.children
      some (BState.mk (saveNode st.store node1) st.rootID st.order st.nextID)
    else if node.isLeaf then
      let node1 := BNode.mk node.id node.isLeaf
        (insertAt node.keys i (KV.mk key value)) node.children
      some (BState.mk (saveNode st.store node1) st.rootID st.order st.nextID)
    else
      match loadNode st.store (node.children.getD i 0) with
      | none => none
      | some child =>
        if child.keys.length = 2 * st.order - 1 then
          let (st1, node1) := splitChild st node i child
          if strLt (node1.keys.getD i kv0).key key then
            match loadNode st1.store (node1.children.getD (i + 1) 0) with
            | none => none
            | some child2 => insertNonFull st1 child2 key value fuel
          else if key = (node1.keys.getD i kv0).key then
            let node2 := BNode.mk node1.id node1.isLeaf
              (node1.keys.set i (KV.mk (node1.keys.getD i kv0).key value)) node1.children
            some (BState.mk (saveNode st1.store node2) st1.rootID st1.order st1.nextID)
          else
            match loadNode st1.store (node1.children.getD i 0) with
            | none => none
            | some child2 => insertNonFull st1 child2 key value fuel
        else insertNonFull st child key value fuel

/-- `Insert`: split a full root first, then descend. -/
def insertB (st : BState) (key value : String) (fuel : Nat) : Option BState :=
  match loadNode st.store st.rootID with
  | none => none
  | some root =>
    if root.keys.length = 2 * st.order - 1 then
      let newRoot := BNode.mk st.nextID false [] [root.id]
      let st1 := BState.mk st.store st.rootID st.order (st.nextID + 1)
      let (st2, parent1) := splitChild st1 newRoot 0 root
      let st3 := BState.mk (saveNode st2.store parent1) newRoot.id st2.order st2.nextID
      insertNonFull st3 parent1 key value fuel
    else insertNonFull st root key value fuel

/-- `findInNode`; `some (some v)` found, `some none` not found. -/
def findInNode (st : BState) (node : BNode) (key : String) :
    Nat → Option (Option String)
  | 0 => none
  | fuel + 1 =>
    let i := scanIdx node.keys key
    if i < node.keys.length ∧ (node.keys.getD i kv0).key = key then
      some (some (node.keys.getD i kv0).value)
    else if node.isLeaf then
      some none
    else
      match loadNode st.store (node.children.getD i 0) with
      | none => none
      | some child => findInNode st child key fuel

/-- `Find`. -/
def findB (st : BState) (key : String) (fuel : Nat) : Option (Option String) :=
  match loadNode st.store st.rootID with
  | none => none
  | some root => findInNode st root key fuel

/-- `findAllNodes`: each visited node contributes its own keys first and
its children are then visited left to right — a pre-order walk, not an
in-order one.  The Go recursion over the children is realized with an
explicit stack (`work`) so that the definition is structural in the
fuel; the visit order is identical. -/
def findAllWork (st : BState) : Nat → List Nat → List KV → Option (List KV)
  | 0, _, _ => none
  | _ + 1, [], acc => some acc
  | fuel + 1, id :: rest, acc =>
    match loadNode st.store id with
    | none => none
    | some n =>
      findAllWork st fuel ((if n.isLeaf then [] else n.children) ++ rest) (acc ++ n.keys)

/-- `FindAll`. -/
def findAllB (st : BState) (fuel : Nat) : Option (List KV) :=
  match loadNode st.store st.rootID with
  | none => some []
  | some _ => findAllWork st fuel [st.rootID] []

/-- The descent loop of `getPredecessor`: walk to the rightmost leaf.
`some none` is the Go error return. -/
def predLoop (st : BState) (child : BNode) : Nat → Option (Option KV)
  | 0 => none
  | fuel + 1 =>
    if child.isLeaf then
      match child.keys.getLast? with
      | none => some none
      | some kv => some (some kv)
    else
      match child.children.getLast? with
      | none => some none
      | some cid =>
        match loadNode st.store cid with
        | none =>
          match child.keys.getLast? with
          | none => some none
          | some kv => some (some kv)
        | some c2 => predLoop st c2 fuel

/-- `getPredecessor(node, index)`. -/
def getPredecessor (st : BState) (node : BNode) (index : Nat) (fuel : Nat) :
    Option (Option KV) :=
  if index ≥ node.children.length then some none
  else
    match loadNode st.store (node.children.getD index 0) with
    | none => some none
    | some child => predLoop st child fuel

/-- `mergeNodes(parent, index, left, right)`: pull the separator down,
concatenate, drop the right child pointer and delete its node. -/
def mergeNodes (st : BState) (parent : BNode) (index : Nat) (left right : BNode) :
    Option BState :=
  if index ≥ parent.keys.length then none
  else
    let sep := parent.keys.getD index kv0
    let left1 := BNode.mk left.id left.isLeaf
      ((left.keys ++ [sep]) ++ right.keys)
      (if left.isLeaf then left.children else left.children ++ right.children)
    let parent1 := BNode.mk parent.id parent.isLeaf
      (removeAt parent.keys index)
      (if index + 1 < parent.children.length then removeAt parent.children (index + 1)
       else parent.children.take (index + 1))
    let store1 := deleteNodeStore (saveNode (saveNode st.store parent1) left1) right.id
    some (BState.mk store1 st.rootID st.order st.nextID)

/-- The merge cases at the end of `ensureMinKeys`. -/
def ensureMerge (st : BState) (node : BNode) (index : Nat) (child : BNode) :
    Option BState :=
  if index > 0 then
    if ¬ nodeExists st.store (node.children.getD (index - 1) 0) then
      if index < node.children.length - 1 ∧
          nodeExists st.store (node.children.getD (index + 1) 0) then
        match loadNode st.store (node.children.getD (index + 1) 0) with
        | none => none
        | some rightSibling => mergeNodes st node index child rightSibling
      else
        let node1 := BNode.mk node.id node.isLeaf
          (if index - 1 < node.keys.length then removeAt node.keys (index - 1) else node.keys)
          (removeAt node.children (index - 1))
        some (BState.mk (saveNode st.store node1) st.rootID st.order st.nextID)
    else
      match loadNode st.store (node.children.getD (index - 1) 0) with
      | none => none
      | some leftSibling => mergeNodes st node (index - 1) leftSibling child
  else
    if index ≥ node.children.length - 1 ∨
        ¬ nodeExists st.store (node.children.getD (index + 1) 0) then
      let node1 := BNode.mk node.id node.isLeaf
        (if index < node.keys.length then removeAt node.keys index else node.keys)
        (removeAt node.children index)
      some (BState.mk (saveNode st.store node1) st.rootID st.order st.nextID)
    else
      match loadNode st.store (node.children.getD (index + 1) 0) with
      | none => none
      | some rightSibling => mergeNodes st node index child rightSibling

/-- Right-borrow attempt, falling through to the merge cases. -/
def ensureBorrowRight (st : BState) (node : BNode) (index : Nat) (child : BNode) :
    Option BState :=
  if index < node.children.length - 1 then
    if ¬ nodeExists st.store (node.children.getD (index + 1) 0) then
      let node1 := BNode.mk node.id node.isLeaf
        (if index < node.keys.length then removeAt node.keys index else node.keys)
        (removeAt node.children (index + 1))
      some (BState.mk (saveNode st.store node1) st.rootID st.order st.nextID)
    else
      match loadNode st.store (node.children.getD (index + 1) 0) with
      | none => none
      | some rightSibling =>
        if rightSibling.keys.length ≥ st.order then
          let child1 := BNode.mk child.id child.isLeaf
            (child.keys ++ [node.keys.getD index kv0])
            (if ¬ child.isLeaf ∧ rightSibling.children.length > 0 then
               child.children ++ [rightSibling.children.getD 0 0]
             else child.children)
          let node1 := BNode.mk node.id node.isLeaf
            (node.keys.set index (rightSibling.keys.getD 0 kv0))
            node.children
          let right1 := BNode.mk rightSibling.id rightSibling.isLeaf
            (rightSibling.keys.drop 1)
            (if ¬ child.isLeaf ∧ rightSibling.children.length > 0 then
               rightSibling.children.drop 1
             else rightSibling.children)
          some (BState.mk
            (saveNode (saveNode (saveNode st.store node1) child1) right1)
            st.rootID st.order st.nextID)
        else ensureMerge st node index child
  else ensureMerge st node index child

/-- Left-borrow attempt of `ensureMinKeys`, falling through to the right
sibling and the merge cases. -/
def ensureBorrowLeft (st : BState) (node : BNode) (index : Nat) (child : BNode) :
    Option BState :=
  if index > 0 then
    if ¬ nodeExists st.store (node.children.getD (index - 1) 0) then
      let node1 := BNode.mk node.id node.isLeaf
        (if index - 1 < node.keys.length then removeAt node.keys (index - 1) else node.keys)
        (removeAt node.children (index - 1))
      some (BState.mk (saveNode st.store node1) st.rootID st.order st.nextID)
    else
      match loadNode st.store (node.children.getD (index - 1) 0) with
      | none => none
      | some leftSibling =>
        if leftSibling.keys.length ≥ st.order then
          let child1 := BNode.mk child.id child.isLeaf
            (node.keys.getD (index - 1) kv0 :: child.keys)
            (if ¬ child.isLeaf ∧ leftSibling.children.length > 0 then
               (leftSibling.children.getLast?).getD 0 :: child.children
             else child.children)
          let node1 := BNode.mk node.id node.isLeaf
            (node.keys.set (index - 1) ((leftSibling.keys.getLast?).getD kv0))
            node.children
          let left1 := BNode.mk leftSibling.id leftSibling.isLeaf
            leftSibling.keys.dropLast
            (if ¬ child.isLeaf ∧ leftSibling.children.length > 0 then
               leftSibling.children.dropLast
             else leftSibling.children)
          some (BState.mk
            (saveNode (saveNode (saveNode st.store node1) child1) left1)
            st.rootID st.order st.nextID)
        else ensureBorrowRight st node index child
  else ensureBorrowRight st node index child

/-- `ensureMinKeys(node, index)`: borrow from the left sibling, else the
right, else merge; missing-node references are pruned and saved.
`none` models the Go error returns (unreachable on a complete store). -/
def ensureMinKeys (st : BState) (node : BNode) (index : Nat) : Option BState :=
  if index ≥ node.children.length then none
  else if ¬ nodeExists st.store (node.children.getD index 0) then
    let node1 := BNode.mk node.id node.isLeaf
      (if index < node.keys.length then removeAt node.keys index else node.keys)
      (removeAt node.children index)
    some (BState.mk (saveNode st.store node1) st.rootID st.order st.nextID)
  else
    match loadNode st.store (node.children.getD index 0) with
    | none => none
    | some child =>
      if child.keys.length ≥ st.order then some st
      else
        ensureBorrowLeft st node index child

/-- `deleteFromNode` of `btree/kv_delete.go`. -/
def deleteFromNode (st : BState) (node? : Option BNode) (key : String) :
    Nat → Option (Bool × BState)
  | 0 => none
  | fuel + 1 =>
    match node? with
    | none => some (false, st)
    | some node =>
      let i := scanIdx node.keys key
      if i < node.keys.length ∧ (node.keys.getD i kv0).key = key then
        -- case 1: the key is in this node
        if node.isLeaf then
          let node1 := BNode.mk node.id node.isLeaf (removeAt node.keys i) node.children
          some (true, BState.mk (saveNode st.store node1) st.rootID st.order st.nextID)
        else if i < node.children.length ∧
            ¬ nodeExists st.store (node.children.getD i 0) then
          let node1 := BNode.mk node.id node.isLeaf
            (removeAt node.keys i) (removeAt node.children i)
          some (true, BState.mk (saveNode st.store node1) st.rootID st.order st.nextID)
        else
          match getPredecessor st node i (fuel + 1) with
          | none => none
          | some none =>
            -- predecessor lookup failed: drop the key (and child) in place
            let node1 := BNode.mk node.id node.isLeaf
              (removeAt node.keys i)
              (if i < node.children.length then removeAt node.children i else node.children)
            some (true, BState.mk (saveNode st.store node1) st.rootID st.order st.nextID)
          | some (some pred) =>
            -- node.Keys[i] = pred (pointer mutation, visible via the cache)
            let node1 := BNode.mk node.id node.isLeaf (node.keys.set i pred) node.children
            let st1 := BState.mk (saveNode st.store node1) st.rootID st.order st.nextID
            match loadNode st1.store (node1.children.getD i 0) with
            | none =>
              let node2 := BNode.mk node1.id node1.isLeaf
                (removeAt node1.keys i) (removeAt node1.children i)
              some (true, BState.mk (saveNode st1.store node2) st1.rootID st1.order st1.nextID)
            | some childNode =>
              if childNode.keys.length < st1.order then
                match ensureMinKeys st1 node1 i with
                | none => none
                | some st2 =>
                  match loadNode st2.store node1.id with
                  | none => none
                  | some node2 =>
                    match loadNode st2.store (node2.children.getD i 0) with
                    | none =>
                      some (true, BState.mk (saveNode st2.store node2)
                        st2.rootID st2.order st2.nextID)
                    | some child2 => deleteFromNode st2 (some child2) pred.key fuel
              else deleteFromNode st1 (some childNode) pred.key fuel
      else if node.isLeaf then some (false, st)
      else if i ≥ node.children.length then some (false, st)
      else if ¬ nodeExists st.store (node.children.getD i 0) then
        let children1 := removeAt node.children i
        let keys1 :=
          if children1.length ≤ i ∧ i > 0 ∧ node.keys.length ≥ i then node.keys.take (i - 1)
          else node.keys
        let node1 := BNode.mk node.id node.isLeaf keys1 children1
        some (false, BState.mk (saveNode st.store node1) st.rootID st.order st.nextID)
      else
        match loadNode st.store (node.children.getD i 0) with
        | none => none
        | some childNode =>
          if childNode.keys.length < st.order then
            match ensureMinKeys st node i with
            | none => none
            | some st2 =>
              match loadNode st2.store node.id with
              | none => none
              | some node2 =>
                if i < node2.children.length then
                  match loadNode st2.store (node2.children.getD i 0) with
                  | none =>
                    some (false, BState.mk (saveNode st2.store node2)
                      st2.rootID st2.order st2.nextID)
                  | some child2 => deleteFromNode st2 (some child2) key fuel
                else some (false, st2)
          else deleteFromNode st (some childNode) key fuel

/-- `Delete`: delete from the root, then promote the sole child of an
emptied internal root. -/
def deleteB (st : BState) (key : String) (fuel : Nat) : Option (Bool × BState) :=
  match loadNode st.store st.rootID with
  | none => some (false, st)
  | some root =>
    match deleteFromNode st (some root) key fuel with
    | none => none
    | some (deleted, st1) =>
      match loadNode st1.store st.rootID with
      | none => none
      | some root1 =>
        if root1.keys.length = 0 ∧ ¬ root1.isLeaf then
          let st2 := BState.mk (deleteNodeStore st1.store st.rootID)
            (root1.children.getD 0 0) st1.order st1.nextID
          some (deleted, st2)
        else some (deleted, st1)

/-- `NewBTree(order)`: a single empty leaf root with id 1. -/
def newBTree (t : Nat) : BState :=
  BState.mk [(1, BNode.mk 1 true [] [])] 1 t 2

inductive BOp where
  | ins (k v : String)
  | del (k : String)

def stepB (st : BState) : BOp → Option BState
  | BOp.ins k v => insertB st k v 50
  | BOp.del k => (deleteB st k 50).map Prod.snd

def runB (st : BState) : List BOp → Option BState
  | [] => some st
  | op :: rest =>
    match stepB st op with
    | none => none
    | some st1 => runB st1 rest

/-- Strict ascent of a node's key list. -/
def keysSorted : List KV → Bool
  | [] => true
  | [_] => true
  | a :: b :: rest => strLt a.key b.key && keysSorted (b :: rest)

/-- The local BT-ORDER conditions on one node. -/
def nodeLocalOk (t : Nat) (isRoot : Bool) (n : BNode) : Bool :=
  keysSorted n.keys &&
  (if n.isLeaf then n.children.isEmpty else n.children.length == n.keys.length + 1) &&
  (isRoot || (decide (t - 1 ≤ n.keys.length) && decide (n.keys.length ≤ 2 * t - 1)))

/-- BT-ORDER checked over every node reachable from the work list
(`true` tags the root, which is exempt from the key-count bounds). -/
def walkOkWork (st : BState) : Nat → List (Nat × Bool) → Bool
  | 0, _ => false
  | _ + 1, [] => true
  | fuel + 1, (id, isRoot) :: rest =>
    match loadNode st.store id with
    | none => false
    | some n =>
      nodeLocalOk st.order isRoot n &&
      walkOkWork st fuel
        ((if n.isLeaf then [] else n.children.map (fun c => (c, false))) ++ rest)

/-- BT-ORDER over the whole tree. -/
def walkOk (fuel : Nat) (st : BState) : Bool :=
  walkOkWork st fuel [(st.rootID, true)]

/-- The op sequence exhibiting the BT-ORDER violation (order 3). -/
def c6ops : List BOp :=
  [BOp.ins "b" "v", BOp.ins "k" "v", BOp.ins "l" "v", BOp.ins "i" "v",
   BOp.ins "j" "v", BOp.ins "g" "v", BOp.ins "f" "v", BOp.ins "c" "v",
   BOp.ins "a" "v", BOp.del "h", BOp.ins "e" "v", BOp.ins "d" "v",
   BOp.ins "i" "v", BOp.del "f", BOp.del "i", BOp.del "j"]

/-- Scenario 1 of the spec: six fruit inserts at order 3. -/
def c2ops : List BOp :=
  [BOp.ins "apple" "red", BOp.ins "banana" "yellow", BOp.ins "cherry" "pink",
   BOp.ins "date" "brown", BOp.ins "elderberry" "purple", BOp.ins "fig" "purple"]

/-- Nine single-letter inserts and one delete building the tree whose
root is internal with keys `c`, `f` over three two-key leaves. -/
def c3ops : List BOp :=
  [BOp.ins "a" "va", BOp.ins "b" "vb", BOp.ins "c" "vc", BOp.ins "d" "vd",
   BOp.ins "e" "ve", BOp.ins "f" "vf", BOp.ins "g" "vg", BOp.ins "h" "vh",
   BOp.ins "i" "vi", BOp.del "i"]

/-! ## Snapshot index (`dbcli/interface.go`: `storeSnapshot`) -/

structure Snapshot where
  commit : String
  message : String
  timestamp : String
deriving DecidableEq, Repr

/-- Go map store for the snapshot index. -/
def snapSet (m : List (String × Snapshot)) (id : String) (s : Snapshot) :
    List (String × Snapshot) :=
  match m with
  | [] => [(id, s)]
  | (i1, s1) :: rest => if i1 = id then (id, s) :: rest else (i1, s1) :: snapSet rest id s

/-- `storeSnapshot`: read `snapshots.json` (`readData = none` models a
read failure or missing file), fall back to an empty map when reading or
unmarshalling fails, add the new entry under a fresh id and return the
map that is marshalled back to the file.  `parse` stands for
`json.Unmarshal`, `none` being its error result. -/
def storeSnapshot (readData : Option String)
    (parse : String → Option (List (String × Snapshot)))
    (newId commitHash commitMsg timestamp : String) : List (String × Snapshot) :=
  let snapshots :=
    match readData with
    | none => []
    | some data =>
      match parse data with
      | none => []
      | some m => m
  snapSet snapshots newId (Snapshot.mk commitHash commitMsg timestamp)

/-! ## Delta codec (`dbcli/interface.go`: `computeDelta`,
`computeDeltaOperations`, `applyDelta`)

Bytes are `Nat`s below 256; Go's `byte(x)` truncations appear as `% 256`
and `uint32` as `% 2^32`.  Loops carry structural fuel so that the
kernel can evaluate every definition; each fuel-exhaustion branch is
unreachable at the fuel the wrappers supply (each iteration makes at
least one unit of progress), which the lemmas below establish. -/

/-- `DeltaOperation`. -/
inductive DeltaOp where
  | copy (offset size : Nat)
  | insert (data : List Nat)
deriving DecidableEq, Repr

/-- The inner match loop of `computeDeltaOperations`: count equal bytes
from the front, stopping at the first mismatch (the loop bound
`min(len(base)-bi, len(target)-ti)` is implied). -/
def commonPrefixLen : List Nat → List Nat → Nat
  | a :: as, b :: bs => if a = b then commonPrefixLen as bs + 1 else 0
  | _, _ => 0

/-- Match length of `base[bi..]` against `target[ti..]`. -/
def matchLenAt (base target : List Nat) (bi ti : Nat) : Nat :=
  commonPrefixLen (base.drop bi) (target.drop ti)

/-- One step of the brute-force best-match scan: strict improvement, so
the first position achieving the maximum is kept. -/
def bmStep (base target : List Nat) (ti : Nat) (best : Nat × Nat) (bi : Nat) : Nat × Nat :=
  let m := matchLenAt base target bi ti
  if best.1 < m then (m, bi) else best

/-- The best-match scan over every base position; `(length, offset)`. -/
def bestMatch (base target : List Nat) (ti : Nat) : Nat × Nat :=
  (List.range base.length).foldl (bmStep base target ti) (0, 0)

/-- The look-ahead of the literal-run loop: is there a 4-byte match of
`target[ti..ti+4]` anywhere in `base`? -/
def hasMatch4 (base target : List Nat) (ti : Nat) : Bool :=
  (List.range base.length).any (fun bi =>
    decide (bi + 4 ≤ base.length) &&
    decide ((base.drop bi).take 4 = (target.drop ti).take 4))

/-- The literal-run loop: starting at `start`, advance until a 4-byte
match appears, the target ends, or 127 bytes accumulate (checked after
the increment, as in the source). -/
def insertRunEnd (base target : List Nat) (start : Nat) : Nat → Nat → Nat
  | ti, 0 => ti
  | ti, fuel + 1 =>
    if ti < target.length then
      if ti + 4 ≤ target.length ∧ hasMatch4 base target ti then ti
      else if ti + 1 - start ≥ 127 then ti + 1
      else insertRunEnd base target start (ti + 1) fuel
    else ti

/-- The main loop of `computeDeltaOperations`. -/
def opsLoop (base target : List Nat) : Nat → Nat → List DeltaOp
  | _, 0 => []
  | ti, fuel + 1 =>
    if ti < target.length then
      let best := if 4 ≤ target.length - ti then bestMatch base target ti else (0, 0)
      if 4 ≤ best.1 then
        DeltaOp.copy best.2 best.1 :: opsLoop base target (ti + best.1) fuel
      else
        let e := insertRunEnd base target ti ti (target.length + 1)
        DeltaOp.insert ((target.drop ti).take (e - ti)) :: opsLoop base target e fuel
    else []

/-- `computeDeltaOperations`. -/
def computeDeltaOperations (base target : List Nat) : List DeltaOp :=
  opsLoop base target 0 (target.length + 1)

/-- The byte-emission loop shared by the offset (4 slots) and size
(3 slots) encodings: emit `v % 256` while `v > 0`, and always at the
first slot.  The source sets the command bit `i` exactly when slot `i`
is emitted; since emission stops for good once `v` reaches 0, the
emitted slots are the contiguous prefix `0..k-1`. -/
def leBytesAux : Nat → Nat → Bool → List Nat
  | _, 0, _ => []
  | v, rem + 1, first =>
    if v > 0 ∨ first = true then (v % 256) :: leBytesAux (v / 256) rem false
    else []

/-- The command byte of a copy instruction: high bit set, offset flag
bits `0..k_off-1`, size flag bits `4..4+k_size-1` (see `leBytesAux`). -/
def cmdOf (ko ks : Nat) : Nat :=
  128 + (2 ^ ko - 1) + 16 * (2 ^ ks - 1)

/-- Encoding of one copy instruction. -/
def encodeCopy (offset size : Nat) : List Nat :=
  let offB := leBytesAux offset 4 true
  let szB := leBytesAux size 3 true
  cmdOf offB.length szB.length :: (offB ++ szB)

/-- The insert-writer loop of `computeDelta`: chunks of at most 127
bytes, each prefixed by its length byte. -/
def encodeInsertLoop : Nat → List Nat → List Nat
  | 0, _ => []
  | _ + 1, [] => []
  | fuel + 1, data =>
    let chunkSize := min data.length 127
    chunkSize :: (data.take chunkSize ++ encodeInsertLoop fuel (data.drop chunkSize))

/-- Serialization of the operation list. -/
def encodeOps : List DeltaOp → List Nat
  | [] => []
  | DeltaOp.copy off sz :: rest => encodeCopy off sz ++ encodeOps rest
  | DeltaOp.insert data :: rest =>
    encodeInsertLoop (data.length + 1) data ++ encodeOps rest

/-- `binary.Write(_, LittleEndian, uint32(n))`: truncate to 32 bits,
four bytes low-first. -/
def u32le (n : Nat) : List Nat :=
  [n % 2 ^ 32 % 256, n % 2 ^ 32 / 2 ^ 8 % 256, n % 2 ^ 32 / 2 ^ 16 % 256,
   n % 2 ^ 32 / 2 ^ 24 % 256]

/-- `computeDelta`: the two little-endian sizes, then the instructions. -/
def computeDelta (base target : List Nat) : List Nat :=
  u32le base.length ++ u32le target.length ++ encodeOps (computeDeltaOperations base target)

/-- `binary.LittleEndian.Uint32` of four bytes. -/
def u32leDecode (l : List Nat) : Nat :=
  l.getD 0 0 + 2 ^ 8 * l.getD 1 0 + 2 ^ 16 * l.getD 2 0 + 2 ^ 24 * l.getD 3 0

/-- Little-endian value of a byte list (decoder's accumulation). -/
def decodeLE : List Nat → Nat
  | [] => 0
  | b :: rest => b + 256 * decodeLE rest

/-- The decoder's error returns; `streamOutOfBounds` stands for the Go
slice-index panic when a flagged byte runs past the delta (and for the
unreachable fuel branch). -/
inductive DeltaErr where
  | tooShort
  | baseSizeMismatch
  | badCommand0
  | invalidCopy
  | invalidInsert
  | resultSizeMismatch
  | streamOutOfBounds
deriving DecidableEq, Repr

/-- The decoder's flagged-byte read: for `j = 0..count-1`, when bit
`bitBase + j` of `cmd` is set (`cmd & (1 << j) != 0` in the source)
consume one byte into position `8*j` of the value.  Returns the value
and the number of bytes consumed. -/
def readFlagged (cmd bitBase : Nat) : Nat → Nat → List Nat → Option (Nat × Nat)
  | _, 0, _ => some (0, 0)
  | j, count + 1, s =>
    if cmd.testBit (bitBase + j) then
      match s with
      | [] => none
      | b :: rest =>
        match readFlagged cmd bitBase (j + 1) count rest with
        | none => none
        | some (v, n) => some (v + b * 256 ^ j, n + 1)
    else readFlagged cmd bitBase (j + 1) count s

/-- The instruction loop of `applyDelta`. -/
def applyDeltaLoop (base : List Nat) : Nat → List Nat → List Nat → Except DeltaErr (List Nat)
  | _, [], acc => Except.ok acc
  | 0, _ :: _, _ => Except.error DeltaErr.streamOutOfBounds
  | fuel + 1, cmd :: s, acc =>
    if cmd = 0 then Except.error DeltaErr.badCommand0
    else if cmd.testBit 7 then
      match readFlagged cmd 0 0 4 s with
      | none => Except.error DeltaErr.streamOutOfBounds
      | some (offset, n1) =>
        match readFlagged cmd 4 0 3 (s.drop n1) with
        | none => Except.error DeltaErr.streamOutOfBounds
        | some (size0, n2) =>
          let size := if size0 = 0 then 65536 else size0
          if base.length < offset + size then Except.error DeltaErr.invalidCopy
          else applyDeltaLoop base fuel (s.drop (n1 + n2))
            (acc ++ (base.drop offset).take size)
    else
      if s.length < cmd then Except.error DeltaErr.invalidInsert
      else applyDeltaLoop base fuel (s.drop cmd) (acc ++ s.take cmd)

/-- `applyDelta`. -/
def applyDelta (base delta : List Nat) : Except DeltaErr (List Nat) :=
  if delta.length < 8 then Except.error DeltaErr.tooShort
  else if u32leDecode (delta.take 4) ≠ base.length then Except.error DeltaErr.baseSizeMismatch
  else
    match applyDeltaLoop base (delta.length + 1) (delta.drop 8) [] with
    | Except.error e => Except.error e
    | Except.ok result =>
      if result.length ≠ u32leDecode ((delta.drop 4).take 4) then
        Except.error DeltaErr.resultSizeMismatch
      else Except.ok result

/-- The byte segment an instruction reconstructs. -/
def opEval (base : List Nat) : DeltaOp → List Nat
  | DeltaOp.copy off sz => (base.drop off).take sz
  | DeltaOp.insert data => data

/-- The well-formedness the encoder guarantees on a short base: every
copy stays inside the base with a size below `2^24` (three size bytes)
and every insert is a 1–127 byte literal. -/
def opsValid (base : List Nat) (ops : List DeltaOp) : Prop :=
  ∀ op ∈ ops,
    match op with
    | DeltaOp.copy off sz => off + sz ≤ base.length ∧ 1 ≤ sz ∧ sz < 2 ^ 24
    | DeltaOp.insert data => 1 ≤ data.length ∧ data.length ≤ 127

/-- The object store: association list from an object id (the digest of
the framed bytes; in the store it names the path
`.nutella/objects/<id[0..2]>/<id[2..]>`) to the compressed bytes the
file holds, in directory-walk order. -/
abbrev OStore : Type := List (List Nat × List Nat)

/-- File read of `.nutella/objects/<sha[0..2]>/<sha[2..]>` (`os.Stat` /
`os.ReadFile`). -/
def storeLookup : OStore → List Nat → Option (List Nat)
  | [], _ => none
  | (k', v') :: rest, k => if k' = k then some v' else storeLookup rest k

/-- `os.WriteFile` at the object's path: overwrite the entry if the path
exists, otherwise the new file joins the walk. -/
def storeSet : OStore → List Nat → List Nat → OStore
  | [], k, v => [(k, v)]
  | (k', v') :: rest, k, v =>
    if k' = k then (k, v) :: rest else (k', v') :: storeSet rest k v

/-- `zlib.NewWriter` framing, modelled as the two-byte zlib header in
front of the data (the model only needs compression to be injective and
inverted by decompression). -/
def modelCompress (data : List Nat) : List Nat := 120 :: 156 :: data

/-- `zlib.NewReader` + `io.ReadAll` on bytes produced by
`modelCompress`. -/
def modelDecompress (data : List Nat) : List Nat := data.drop 2

/-- ASCII decimal digits of a number (`fmt.Sprintf("%d", n)`). -/
def decDigitsAux : Nat → Nat → List Nat
  | _, 0 => []
  | 0, _ + 1 => []
  | v, fuel + 1 => decDigitsAux (v / 10) fuel ++ [48 + v % 10]

/-- `fmt.Sprintf("%d", n)` as ASCII bytes. -/
def decDigits (n : Nat) : List Nat :=
  if n = 0 then [48] else decDigitsAux n (n + 1)

/-- `bytes.SplitN(data, []byte{0}, 2)` /
`bytes.IndexByte(data, 0)`: the bytes before the first NUL and the
bytes after it; `none` when there is no NUL (one part / index -1). -/
def splitAtNul : List Nat → Option (List Nat × List Nat)
  | [] => none
  | 0 :: rest => some ([], rest)
  | b :: rest => (splitAtNul rest).map (fun p => (b :: p.1, p.2))

/-- The blob framing of `hashAndWriteBlob`:
`"blob <len>\u0000" ++ content` (`"blob "` is bytes 98 108 111 98 32). -/
def blobFrame (content : List Nat) : List Nat :=
  [98, 108, 111, 98, 32] ++ decDigits content.length ++ [0] ++ content

/-- The delta framing of `writeDeltaObject`:
`"delta <base-sha> <size>\u0000" ++ delta` (`"delta "` is bytes
100 101 108 116 97 32; the base id's digest bytes stand for its hex
string). -/
def deltaFrame (baseId delta : List Nat) : List Nat :=
  [100, 101, 108, 116, 97, 32] ++ baseId ++ [32] ++ decDigits delta.length ++ [0] ++ delta

/-- The sampling positions of `calculateSimilarity` over a buffer:
`i = 0, step, 2*step, ...` while `i < min(len, 100*step)` with
`step = max(1, len/100)`. -/
def samplePoints (l : List Nat) : List Nat :=
  let step := max 1 (l.length / 100)
  let bound := min l.length (100 * step)
  (List.range ((bound + step - 1) / step)).map (fun i => i * step)

/-- `calculateSimilarity` as the exact pair
`(matchCount, sampleCount)` (the source divides them as float64; every
use only compares the quotient, done here by cross-multiplication). -/
def similarPair (a b : List Nat) : Nat × Nat :=
  if a.length < 10 ∨ b.length < 10 then (0, 0)
  else
    (samplePoints a).foldl (fun acc i =>
      (samplePoints b).foldl (fun acc2 j =>
        (acc2.1 + if a.getD i 0 = b.getD j 0 then 1 else 0, acc2.2 + 1)) acc) (0, 0)

/-- The quotient a `(matchCount, sampleCount)` pair stands for, as a
fraction with nonzero denominator (`sampleCount == 0` means 0). -/
def simVal (s : Nat × Nat) : Nat × Nat := if s.2 = 0 then (0, 1) else s

/-- `similarity > bestSimilarity` by cross-multiplication. -/
def simLtB (a b : Nat × Nat) : Bool :=
  decide ((simVal a).1 * (simVal b).2 < (simVal b).1 * (simVal a).2)

/-- `similarity > 0.6` by cross-multiplication. -/
def simGt06B (s : Nat × Nat) : Bool :=
  decide (6 * (simVal s).2 < 10 * (simVal s).1)

/-- One visited file of `findSimilarObject`'s walk: decompress, check
the `"blob "` frame, filter on size, keep the entry when strictly more
similar than the best so far and above the 60% threshold.  The
accumulator's first component models `bestMatch` (`none` for `""`). -/
def fsoStep (content : List Nat) (acc : Option (List Nat × List Nat) × Nat × Nat)
    (entry : List Nat × List Nat) : Option (List Nat × List Nat) × Nat × Nat :=
  match splitAtNul (modelDecompress entry.2) with
  | none => acc
  | some (p1, objContent) =>
    if [98, 108, 111, 98, 32].isPrefixOf p1 then
      if objContent.length < content.length / 2 ∨
          objContent.length > content.length * 2 then acc
      else
        let sim := similarPair objContent content
        if simLtB acc.2 sim && simGt06B sim then (some (entry.1, objContent), sim)
        else acc
    else acc

/-- `findSimilarObject`: fold the walk over every object file; `some`
carries `(bestMatch, bestContent)`. -/
def findSimilarObject (st : OStore) (content : List Nat) :
    Option (List Nat × List Nat) :=
  (st.foldl (fsoStep content) (none, 0, 0)).1

/-- `hashAndWriteBlob` over the store, parametrized by the digest
function `h` (SHA-1; the code relies only on it being deterministic and
collision-free).  Returns the object id and the new store.  The
early-exists check, the similar-base search, the
`len(delta) < len(content)*9/10` test (integer division, as in Go) and
both write paths follow the source; file-system errors do not arise in
the model. -/
def hashAndWriteBlob (h : List Nat → List Nat) (st : OStore) (content : List Nat) :
    List Nat × OStore :=
  let frame := blobFrame content
  let sha := h frame
  match storeLookup st sha with
  | some _ => (sha, st)
  | none =>
    match findSimilarObject st content with
    | some (baseId, baseContent) =>
      let delta := computeDelta baseContent content
      if delta.length < content.length * 9 / 10 then
        let dframe := deltaFrame baseId delta
        let dsha := h dframe
        (dsha, storeSet st dsha (modelCompress dframe))
      else (sha, storeSet st sha (modelCompress frame))
    | none => (sha, storeSet st sha (modelCompress frame))

/-- The stores this code ever produces are content-addressed: every
file holds the compression of a frame whose digest is the file's
name. -/
def StoreWF (h : List Nat → List Nat) (st : OStore) : Prop :=
  ∀ p ∈ st, ∃ frame, p.2 = modelCompress frame ∧ p.1 = h frame

/-- `unicode.IsSpace` on the bytes `strings.Fields` splits at. -/
def isSpaceB (b : Nat) : Bool :=
  decide (b = 32 ∨ b = 9 ∨ b = 10 ∨ b = 11 ∨ b = 12 ∨ b = 13)

/-- `strings.Fields` (whitespace-separated words); `cur` is the current
word reversed. -/
def fieldsAux : List Nat → List Nat → List (List Nat)
  | [], cur => if cur = [] then [] else [cur.reverse]
  | b :: rest, cur =>
    if isSpaceB b then
      if cur = [] then fieldsAux rest [] else cur.reverse :: fieldsAux rest []
    else fieldsAux rest (b :: cur)

/-- `readObject`: read and decompress the file; a `"delta "` frame is
resolved against its base (recursively) and reframed with the base's
type and the reconstructed length.  `none` models every `os.Exit(1)`
path; the fuel bounds the delta chain. -/
def readObjectM (st : OStore) : Nat → List Nat → Option (List Nat)
  | 0, _ => none
  | fuel + 1, sha =>
    match storeLookup st sha with
    | none => none
    | some data =>
      let dec := modelDecompress data
      if [100, 101, 108, 116, 97, 32].isPrefixOf dec then
        match splitAtNul dec with
        | none => none
        | some (header, deltaData) =>
          match fieldsAux header [] with
          | [_, baseObjID, _] =>
            match readObjectM st fuel baseObjID with
            | none => none
            | some baseObj =>
              match splitAtNul baseObj with
              | none => none
              | some (baseHeader, baseContent) =>
                match applyDelta baseContent deltaData with
                | Except.error _ => none
                | Except.ok result =>
                  match fieldsAux baseHeader [] with
                  | [] => none
                  | objType :: _ =>
                    some (objType ++ [32] ++ decDigits result.length ++ [0] ++ result)
          | _ => none
      else some dec

/-- 4-byte big-endian `binary.Write(_, BigEndian, uint32(n))`. -/
def u32be (n : Nat) : List Nat :=
  [n % 2 ^ 32 / 2 ^ 24 % 256, n % 2 ^ 32 / 2 ^ 16 % 256, n % 2 ^ 32 / 2 ^ 8 % 256,
   n % 2 ^ 32 % 256]

/-- 8-byte big-endian `binary.Write(_, BigEndian, uint64(n))`. -/
def u64be (n : Nat) : List Nat :=
  [n % 2 ^ 64 / 2 ^ 56 % 256, n % 2 ^ 64 / 2 ^ 48 % 256, n % 2 ^ 64 / 2 ^ 40 % 256,
   n % 2 ^ 64 / 2 ^ 32 % 256, n % 2 ^ 64 / 2 ^ 24 % 256, n % 2 ^ 64 / 2 ^ 16 % 256,
   n % 2 ^ 64 / 2 ^ 8 % 256, n % 2 ^ 64 % 256]

/-- `binary.Write(indexFile, binary.BigEndian, objID)` where `objID` is
a Go `string`: `binary.Write` rejects strings (no fixed size), returns
an error before writing anything, and the caller discards the error —
so nothing reaches the index file. -/
def binaryWriteString (s : List Nat) : List Nat := []

/-- The per-object loop of `packObjectsCmd`: read each object via
`readObject`, append its bytes to the pack at the running offset, and
append the index entry; `none` when `readObject` exits. -/
def packLoop (st : OStore) (fuel : Nat) :
    List (List Nat) → Nat → Option (List Nat × List Nat)
  | [], _ => some ([], [])
  | sha :: rest, off =>
    match readObjectM st fuel sha with
    | none => none
    | some objData =>
      match packLoop st fuel rest (off + objData.length) with
      | none => none
      | some (pk, idx) =>
        some (objData ++ pk, binaryWriteString sha ++ u64be off ++ idx)

/-- `packObjectsCmd` over the store: the walk's object list is the
store's entries in order; header `"PACK"` (bytes 80 65 67 75), version
2 and count big-endian, then the loop from offset 12.  Returns the pack
bytes and the index bytes; `none` when there are no loose objects (the
command writes nothing) or an object read exits. -/
def packObjectsM (st : OStore) (fuel : Nat) : Option (List Nat × List Nat) :=
  match st with
  | [] => none
  | _ =>
    match packLoop st fuel (st.map (fun p => p.1)) 12 with
    | none => none
    | some (pk, idx) =>
      some ([80, 65, 67, 75] ++ u32be 2 ++ u32be st.length ++ pk, idx)

end NutellaDB

namespace NutellaDB

lemma shouldIgnore_iff (relPath : String) (pats : List String) :
    shouldIgnore relPath pats = true ↔
      ∃ p ∈ pats, globMatch p relPath = true ∨ strContains relPath p = true := by
  induction pats with
  | nil => simp [shouldIgnore]
  | cons p rest ih =>
    simp only [shouldIgnore]
    by_cases h : (globMatch p relPath || strContains relPath p) = true
    · rw [if_pos h]
      simp only [true_iff]
      rcases Bool.or_eq_true_iff.mp h with h1 | h1
      · exact ⟨p, List.mem_cons_self p rest, Or.inl h1⟩
      · exact ⟨p, List.mem_cons_self p rest, Or.inr h1⟩
    · rw [if_neg h, ih]
      constructor
      · rintro ⟨q, hq, hmatch⟩
        exact ⟨q, List.mem_cons_of_mem p hq, hmatch⟩
      · rintro ⟨q, hq, hmatch⟩
        rcases List.mem_cons.mp hq with hq' | hq'
        · subst hq'
          exfalso
          apply h
          rcases hmatch with h1 | h1
          · exact Bool.or_eq_true_iff.mpr (Or.inl h1)
          · exact Bool.or_eq_true_iff.mpr (Or.inr h1)
        · exact ⟨q, hq', hmatch⟩

lemma collectPatterns_eq (l : List String) :
    collectPatterns l =
      (l.map String.trim).filter (fun s => !(s = "" || s.startsWith "#")) := by
  induction l with
  | nil => rfl
  | cons line rest ih =>
    simp only [List.map_cons, List.filter_cons, collectPatterns, ih]
    by_cases h1 : line.trim = ""
    · simp [h1]
    · by_cases h2 : line.trim.startsWith "#"
      · simp [h1, h2]
      · simp [h1, h2]

/-- **C8.** `shouldIgnore` returns true exactly when some pattern glob-matches
the path or occurs in it as a substring; loading the ignore file trims every
line, drops the empty ones and the ones starting with `#`, and yields the
empty list when the file is missing. -/
theorem c8_ignore_semantics :
    (∀ (relPath : String) (pats : List String),
        shouldIgnore relPath pats = true ↔
          ∃ p ∈ pats, globMatch p relPath = true ∨ strContains relPath p = true) ∧
    loadGitignore none = [] ∧
    (∀ data : String,
        loadGitignore (some data) =
          ((data.splitOn "\n").map String.trim).filter
            (fun s => !(s = "" || s.startsWith "#"))) :=
  ⟨shouldIgnore_iff, rfl, fun data => collectPatterns_eq (data.splitOn "\n")⟩

/-! ## C2, C3, C6 — the B-tree against BT-ORDERED-SCAN, delete and BT-ORDER -/

/-- **C2** (code bug evidence).  `findAllNodes` emits a node's keys
before recursing into its children, so `FindAll` is a pre-order walk,
not the in-order traversal the spec states: on the spec's own
six-fruit tree of order 3 it returns the root key `cherry` first and
the output is not in ascending key order (though it does contain every
inserted key). -/
theorem c2_findall_not_inorder :
    (runB (newBTree 3) c2ops).bind (fun st => findAllB st 50) =
      some [KV.mk "cherry" "pink", KV.mk "apple" "red", KV.mk "banana" "yellow",
            KV.mk "date" "brown", KV.mk "elderberry" "purple", KV.mk "fig" "purple"] ∧
    keysSorted [KV.mk "cherry" "pink", KV.mk "apple" "red", KV.mk "banana" "yellow",
      KV.mk "date" "brown", KV.mk "elderberry" "purple", KV.mk "fig" "purple"] = false := by
  refine ⟨?_, ?_⟩
  · decide
  · decide

/-- **C3** (code bug evidence).  On the tree with internal root
`[c, f]` over leaves `[a,b]`, `[d,e]`, `[g,h]` (order 3), `Delete("f")`
replaces `f` by its predecessor `e`, but `ensureMinKeys` merges the
child into its *left* sibling, shifting `node.Children`; the code then
reloads `node.Children[i]` — now the *next* sibling — and the recursive
delete of `e` misses.  The call returns `false` instead of `true` and
`e` is left in two nodes (the root and the merged leaf); only
`Find("f")`'s not-found part of the claim holds. -/
theorem c3_delete_internal_broken :
    (runB (newBTree 3) c3ops).bind (fun st0 => (deleteB st0 "f" 50).map (fun r =>
      (r.1, findB r.2 "f" 50,
        (findAllB r.2 50).map (fun l => (l.filter (fun kv => kv.key == "e")).length)))) =
      some (false, some none, some 2) := by
  decide

/-- **C6** (code bug evidence).  A 16-operation insert/delete sequence
at order 3 — every operation succeeding — drives the tree into a state
where a reachable leaf holds the key list `["e", "e"]`: its keys are not
strictly ascending, so the BT-ORDER invariant fails after a successful
operation.  The root cause is the same `ensureMinKeys` merge-left index
slip as in C3, which leaves a key duplicated between a parent and a
child; a later merge pulls the two copies into one node. -/
theorem c6_btorder_violated :
    (runB (newBTree 3) c6ops).map (fun st => walkOk 20 st) = some false ∧
    (runB (newBTree 3) c6ops).bind
        (fun st => (loadNode st.store 5).map (fun n => n.keys.map KV.key)) =
      some ["e", "e"] := by
  refine ⟨?_, ?_⟩
  · decide
  · decide

/-! ## C10 — snapshot index silently restarts from empty -/

/-- **C10.** When `snapshots.json` is missing, unreadable or does not
parse, `storeSnapshot` starts from an empty index: the map it writes
back holds exactly the one new entry, every previous entry is discarded,
and no error is surfaced. -/
theorem c10_snapshot_reset (readData : Option String)
    (parse : String → Option (List (String × Snapshot)))
    (newId commitHash commitMsg timestamp : String)
    (hbad : readData = none ∨ ∃ d, readData = some d ∧ parse d = none) :
    storeSnapshot readData parse newId commitHash commitMsg timestamp =
      [(newId, Snapshot.mk commitHash commitMsg timestamp)] := by
  rcases hbad with h | ⟨d, hd, hp⟩
  · subst h; rfl
  · subst hd
    simp only [storeSnapshot, hp]
    rfl

/-! ### Association list and recency list helper lemmas -/

lemma perm_cons_eraseP {α : Type} (p : α → Bool) :
    ∀ {l : List α} {a : α}, l.find? p = some a → l.Perm (a :: l.eraseP p) := by
  intro l
  induction l with
  | nil => intro a h; simp at h
  | cons x xs ih =>
    intro a h
    by_cases hp : p x
    · rw [List.find?_cons_of_pos _ hp] at h
      cases h
      rw [List.eraseP_cons_of_pos hp]
    · rw [List.find?_cons_of_neg _ hp] at h
      rw [List.eraseP_cons_of_neg hp]
      exact (List.Perm.cons x (ih h)).trans (List.Perm.swap a x _)

lemma mapLookup_mapSet_self (m : List (String × List String)) (c : String) (ks : List String) :
    mapLookup (mapSet m c ks) c = some ks := by
  induction m with
  | nil => simp [mapSet, mapLookup]
  | cons e rest ih =>
    obtain ⟨c1, ks1⟩ := e
    by_cases h : c1 = c
    · simp [mapSet, mapLookup, h]
    · simp [mapSet, mapLookup, h, ih]

lemma mapLookup_mapSet_ne (m : List (String × List String)) (c c' : String) (ks : List String)
    (h : c' ≠ c) : mapLookup (mapSet m c ks) c' = mapLookup m c' := by
  induction m with
  | nil =>
    simp only [mapSet, mapLookup]
    rw [if_neg (Ne.symm h)]
  | cons e rest ih =>
    obtain ⟨c1, ks1⟩ := e
    by_cases h1 : c1 = c
    · subst h1
      simp only [mapSet, if_pos rfl, mapLookup]
      rw [if_neg (Ne.symm h), if_neg (fun he : c1 = c' => h (he ▸ rfl))]
    · simp only [mapSet, if_neg h1, mapLookup]
      by_cases h2 : c1 = c'
      · rw [if_pos h2, if_pos h2]
      · rw [if_neg h2, if_neg h2, ih]

lemma mapLookup_none_iff (m : List (String × List String)) (c : String) :
    mapLookup m c = none ↔ c ∉ m.map Prod.fst := by
  induction m with
  | nil => simp [mapLookup]
  | cons e rest ih =>
    obtain ⟨c1, ks1⟩ := e
    by_cases h : c1 = c
    · simp [mapLookup, h]
    · simp [mapLookup, h, ih, Ne.symm h]

lemma mapLookup_some_mem {m : List (String × List String)} {c : String} {ks : List String}
    (h : mapLookup m c = some ks) : c ∈ m.map Prod.fst := by
  by_contra hc
  rw [← mapLookup_none_iff] at hc
  rw [h] at hc
  cases hc

lemma fst_mapSet_mem (m : List (String × List String)) (c : String) (ks : List String)
    (h : c ∈ m.map Prod.fst) : (mapSet m c ks).map Prod.fst = m.map Prod.fst := by
  induction m with
  | nil => simp at h
  | cons e rest ih =>
    obtain ⟨c1, ks1⟩ := e
    by_cases h1 : c1 = c
    · simp [mapSet, h1]
    · simp only [List.map_cons, List.mem_cons] at h
      rcases h with h | h

      · exact absurd h.symm h1
      · simp [mapSet, h1, ih h]

lemma fst_mapSet_not_mem (m : List (String × List String)) (c : String) (ks : List String)
    (h : c ∉ m.map Prod.fst) : (mapSet m c ks).map Prod.fst = m.map Prod.fst ++ [c] := by
  induction m with
  | nil => simp [mapSet]
  | cons e rest ih =>
    obtain ⟨c1, ks1⟩ := e
    simp only [List.map_cons, List.mem_cons] at h
    push_neg at h
    simp only [mapSet, if_neg (Ne.symm h.1), List.map_cons, ih h.2, List.cons_append]

lemma totalCount_cons (c : String) (ks : List String) (m : List (String × List String)) :
    totalCount ((c, ks) :: m) = ks.length + totalCount m := by
  simp [totalCount]

lemma totalCount_mapSet_of_lookup {m : List (String × List String)} {c : String}
    {ks0 : List String} (ks : List String) (h : mapLookup m c = some ks0) :
    totalCount (mapSet m c ks) + ks0.length = totalCount m + ks.length := by
  induction m with
  | nil => simp [mapLookup] at h
  | cons e rest ih =>
    obtain ⟨c1, ks1⟩ := e
    by_cases h1 : c1 = c
    · rw [mapLookup, if_pos h1] at h
      cases h
      simp [mapSet, h1, totalCount_cons]
      omega
    · rw [mapLookup, if_neg h1] at h
      simp only [mapSet, if_neg h1, totalCount_cons]
      have := ih h
      omega

lemma totalCount_mapSet_of_none {m : List (String × List String)} {c : String}
    (ks : List String) (h : mapLookup m c = none) :
    totalCount (mapSet m c ks) = totalCount m + ks.length := by
  induction m with
  | nil => simp [mapSet, totalCount_cons, totalCount]
  | cons e rest ih =>
    obtain ⟨c1, ks1⟩ := e
    by_cases h1 : c1 = c
    · rw [mapLookup, if_pos h1] at h
      cases h
    · rw [mapLookup, if_neg h1] at h
      simp only [mapSet, if_neg h1, totalCount_cons]
      have := ih h
      omega

lemma mapDelete_sublist (m : List (String × List String)) (c : String) :
    (mapDelete m c).Sublist m := by
  induction m with
  | nil => simp [mapDelete]
  | cons e rest ih =>
    obtain ⟨c1, ks1⟩ := e
    by_cases h1 : c1 = c
    · simp only [mapDelete, if_pos h1]
      exact List.sublist_cons_self _ _
    · simp only [mapDelete, if_neg h1]
      exact List.Sublist.cons₂ _ ih

lemma mapLookup_mapDelete_self {m : List (String × List String)} {c : String}
    (hnd : (m.map Prod.fst).Nodup) : mapLookup (mapDelete m c) c = none := by
  induction m with
  | nil => simp [mapDelete, mapLookup]
  | cons e rest ih =>
    obtain ⟨c1, ks1⟩ := e
    simp only [List.map_cons, List.nodup_cons] at hnd
    by_cases h1 : c1 = c
    · subst h1
      simp only [mapDelete, if_pos rfl]
      rw [mapLookup_none_iff]
      exact hnd.1
    · simp only [mapDelete, if_neg h1, mapLookup, if_neg h1]
      exact ih hnd.2

lemma mapLookup_mapDelete_ne (m : List (String × List String)) (c c' : String)
    (h : c' ≠ c) : mapLookup (mapDelete m c) c' = mapLookup m c' := by
  induction m with
  | nil => simp [mapDelete]
  | cons e rest ih =>
    obtain ⟨c1, ks1⟩ := e
    by_cases h1 : c1 = c
    · subst h1
      have hd : mapDelete ((c1, ks1) :: rest) c1 = rest := by simp [mapDelete]
      rw [hd]
      simp only [mapLookup]
      rw [if_neg (fun he : c1 = c' => h (he ▸ rfl))]
    · simp only [mapDelete, if_neg h1, mapLookup]
      by_cases h2 : c1 = c'
      · rw [if_pos h2, if_pos h2]
      · rw [if_neg h2, if_neg h2, ih]

lemma totalCount_mapDelete {m : List (String × List String)} {c : String}
    {ks0 : List String} (hnd : (m.map Prod.fst).Nodup) (h : mapLookup m c = some ks0) :
    totalCount (mapDelete m c) + ks0.length = totalCount m := by
  induction m with
  | nil => simp [mapLookup] at h
  | cons e rest ih =>
    obtain ⟨c1, ks1⟩ := e
    simp only [List.map_cons, List.nodup_cons] at hnd
    by_cases h1 : c1 = c
    · rw [mapLookup, if_pos h1] at h
      cases h
      simp [mapDelete, h1, totalCount_cons]
      omega
    · rw [mapLookup, if_neg h1] at h
      simp only [mapDelete, if_neg h1, totalCount_cons]
      have := ih hnd.2 h
      omega

/-! ### Cache invariant preservation -/

lemma pairsOf_moveToFront (l : List CacheItem) (c k : String) :
    (pairsOf (moveToFront l c k)).Perm (pairsOf l) := by
  unfold moveToFront
  cases hf : findItem l c k with
  | none => exact List.Perm.refl _
  | some it =>
    exact (List.Perm.map (fun it => (it.collection, it.key)) (perm_cons_eraseP _ hf)).symm

lemma pairsOf_moveToFrontUpd (l : List CacheItem) (c k v : String) :
    (pairsOf (moveToFrontUpd l c k v)).Perm (pairsOf l) := by
  unfold moveToFrontUpd
  cases hf : findItem l c k with
  | none => exact List.Perm.refl _
  | some it =>
    exact (List.Perm.map (fun it => (it.collection, it.key)) (perm_cons_eraseP _ hf)).symm

lemma inv_of_pairs_perm {st st' : CacheSt} (hmax : st'.maxSize = st.maxSize)
    (hmap : st'.cacheMap = st.cacheMap)
    (hperm : (pairsOf st'.lruList).Perm (pairsOf st.lruList))
    (h : CacheInv st) : CacheInv st' := by
  obtain ⟨h1, h2, h3, h4, h5, h6⟩ := h
  have hlen : st'.lruList.length = st.lruList.length := by
    have := hperm.length_eq
    simpa [pairsOf] using this
  refine ⟨?_, ?_, ?_, ?_, ?_, ?_⟩
  · rw [hmap]; exact h1
  · exact hperm.nodup_iff.mpr h2
  · rw [hmap, hlen]; exact h3
  · rw [hlen, hmax]; exact h4
  · intro it hit
    have hp : (it.collection, it.key) ∈ pairsOf st.lruList :=
      hperm.mem_iff.mp (List.mem_map_of_mem _ hit)
    obtain ⟨it0, hit0, heq⟩ := List.mem_map.mp hp
    obtain ⟨hc, hk⟩ := Prod.mk.injEq .. ▸ heq
    obtain ⟨ks, hks, hkin⟩ := h5 it0 hit0
    exact ⟨ks, by rw [hmap, ← hc]; exact hks, by rw [← hk]; exact hkin⟩
  · intro c2 ks2 hlk
    rw [hmap] at hlk
    obtain ⟨hnd, hall⟩ := h6 c2 ks2 hlk
    exact ⟨hnd, fun k2 hk2 => hperm.mem_iff.mpr (hall k2 hk2)⟩

lemma inv_newCache (n : Nat) : CacheInv (newCache n) := by
  refine ⟨by simp [newCache], by simp [newCache, pairsOf], by simp [newCache, totalCount],
    by simp [newCache], by simp [newCache], ?_⟩
  intro c ks hlk
  simp [newCache, mapLookup] at hlk

lemma cacheGet_snd_parts (st : CacheSt) (c k : String) :
    (cacheGet st c k).2.maxSize = st.maxSize ∧ (cacheGet st c k).2.cacheMap = st.cacheMap ∧
      (pairsOf (cacheGet st c k).2.lruList).Perm (pairsOf st.lruList) := by
  unfold cacheGet
  cases hl : mapLookup st.cacheMap c with
  | none => exact ⟨rfl, rfl, List.Perm.refl _⟩
  | some ks =>
    dsimp only
    by_cases hk : k ∈ ks
    · rw [if_pos hk]
      cases hf : findItem st.lruList c k with
      | some it => exact ⟨rfl, rfl, pairsOf_moveToFront st.lruList c k⟩
      | none => exact ⟨rfl, rfl, List.Perm.refl _⟩
    · rw [if_neg hk]
      exact ⟨rfl, rfl, List.Perm.refl _⟩

lemma inv_cacheGet (st : CacheSt) (c k : String) (h : CacheInv st) :
    CacheInv (cacheGet st c k).2 := by
  obtain ⟨hmax, hmap, hperm⟩ := cacheGet_snd_parts st c k
  exact inv_of_pairs_perm hmax hmap hperm h

lemma evict_lookup_ne {st : CacheSt} {x : CacheItem} (c' : String)
    (hlast : st.lruList.getLast? = some x) (hne : x.collection ≠ c') :
    mapLookup (evictLRU st).cacheMap c' = mapLookup st.cacheMap c' := by
  unfold evictLRU
  rw [hlast]
  by_cases he : ((mapLookup st.cacheMap x.collection).getD []).erase x.key |>.isEmpty
  · simp only [he, if_true]
    exact mapLookup_mapDelete_ne _ _ _ (Ne.symm hne)
  · simp only [he, if_false]
    exact mapLookup_mapSet_ne _ _ _ _ (Ne.symm hne)

lemma evict_spec (st : CacheSt)
    (h1 : (st.cacheMap.map Prod.fst).Nodup)
    (h2 : (pairsOf st.lruList).Nodup)
    (h3 : totalCount st.cacheMap = st.lruList.length)
    (h5 : ∀ it ∈ st.lruList, ∃ ks, mapLookup st.cacheMap it.collection = some ks ∧ it.key ∈ ks)
    (h6 : ∀ c ks, mapLookup st.cacheMap c = some ks →
            ks.Nodup ∧ ∀ k ∈ ks, (c, k) ∈ pairsOf st.lruList)
    (hne : st.lruList ≠ []) :
    (evictLRU st).maxSize = st.maxSize ∧
    (evictLRU st).lruList.length + 1 = st.lruList.length ∧
    ((evictLRU st).cacheMap.map Prod.fst).Nodup ∧
    (pairsOf (evictLRU st).lruList).Nodup ∧
    totalCount (evictLRU st).cacheMap = (evictLRU st).lruList.length ∧
    (∀ it ∈ (evictLRU st).lruList, ∃ ks,
        mapLookup (evictLRU st).cacheMap it.collection = some ks ∧ it.key ∈ ks) ∧
    (∀ c ks, mapLookup (evictLRU st).cacheMap c = some ks →
        ks.Nodup ∧ ∀ k ∈ ks, (c, k) ∈ pairsOf (evictLRU st).lruList) := by
  have hpos : 0 < st.lruList.length := List.length_pos.mpr hne
  obtain ⟨x, hlast⟩ : ∃ x, st.lruList.getLast? = some x :=
    ⟨st.lruList.getLast hne, List.getLast?_eq_getLast _ hne⟩
  have hdecomp : st.lruList = st.lruList.dropLast ++ [x] := by
    have := List.dropLast_append_getLast hne
    rw [List.getLast?_eq_getLast _ hne] at hlast
    cases hlast
    exact this.symm
  obtain ⟨ksb, hksb, hkx⟩ := h5 x (by rw [hdecomp]; exact List.mem_append_right _ (by simp))
  have hndb : ksb.Nodup := (h6 _ _ hksb).1
  have hpairs_decomp :
      pairsOf st.lruList = pairsOf st.lruList.dropLast ++ [(x.collection, x.key)] := by
    conv_lhs => rw [hdecomp]
    simp [pairsOf]
  have h2l : (pairsOf st.lruList.dropLast).Nodup := by
    rw [hpairs_decomp] at h2
    exact (List.nodup_append.mp h2).1
  have h2x : (x.collection, x.key) ∉ pairsOf st.lruList.dropLast := by
    rw [hpairs_decomp] at h2
    intro hmem
    exact (List.nodup_append.mp h2).2.2 hmem (by simp)
  have hlen_decomp : st.lruList.dropLast.length + 1 = st.lruList.length := by
    rw [List.length_dropLast]; omega
  have hpairne : ∀ it ∈ st.lruList.dropLast,
      (it.collection, it.key) ≠ (x.collection, x.key) := by
    intro it hit heq
    exact h2x (heq ▸ List.mem_map_of_mem _ hit)
  have herase_len : (ksb.erase x.key).length + 1 = ksb.length := by
    rw [List.length_erase_of_mem hkx]
    have : 0 < ksb.length := List.length_pos.mpr (List.ne_nil_of_mem hkx)
    omega
  have hev : evictLRU st = CacheSt.mk st.maxSize st.lruList.dropLast
      (if (ksb.erase x.key).isEmpty then mapDelete st.cacheMap x.collection
       else mapSet st.cacheMap x.collection (ksb.erase x.key)) := by
    unfold evictLRU
    simp only [hlast, hksb, Option.getD_some]
  rw [hev]
  by_cases he : (ksb.erase x.key).isEmpty
  · -- the bucket became empty: the collection entry is removed
    have hks1 : ksb.erase x.key = [] := List.isEmpty_iff.mp he
    have hksb_len : ksb.length = 1 := by rw [hks1] at herase_len; simpa using herase_len.symm
    obtain ⟨a, ha⟩ := List.length_eq_one.mp hksb_len
    have hax : x.key = a := by
      rw [ha] at hkx; simpa using hkx
    rw [if_pos he]
    have hcol_ne : ∀ it ∈ st.lruList.dropLast, it.collection ≠ x.collection := by
      intro it hit heq
      obtain ⟨ks2, hks2, hk2⟩ := h5 it (by rw [hdecomp]; exact List.mem_append_left _ hit)
      rw [heq, hksb] at hks2
      cases hks2
      rw [ha] at hk2
      simp only [List.mem_singleton] at hk2
      exact hpairne it hit (by rw [heq, hk2, hax])
    refine ⟨rfl, hlen_decomp, ((mapDelete_sublist _ _).map Prod.fst).nodup h1, h2l, ?_, ?_, ?_⟩
    · have hd := totalCount_mapDelete h1 hksb
      show totalCount (mapDelete st.cacheMap x.collection) = st.lruList.dropLast.length
      omega
    · intro it hit
      obtain ⟨ks2, hks2, hk2⟩ := h5 it (by rw [hdecomp]; exact List.mem_append_left _ hit)
      refine ⟨ks2, ?_, hk2⟩
      rw [mapLookup_mapDelete_ne _ _ _ (hcol_ne it hit)]
      exact hks2
    · intro c2 ks2 hlk2
      have hc2ne : c2 ≠ x.collection := by
        intro heq
        rw [heq, mapLookup_mapDelete_self h1] at hlk2
        cases hlk2
      rw [mapLookup_mapDelete_ne _ _ _ hc2ne] at hlk2
      obtain ⟨hnd2, hall2⟩ := h6 c2 ks2 hlk2
      refine ⟨hnd2, fun k2 hk2 => ?_⟩
      have hp := hall2 k2 hk2
      rw [hpairs_decomp] at hp
      rcases List.mem_append.mp hp with hmem | hmem
      · exact hmem
      · simp only [List.mem_singleton, Prod.mk.injEq] at hmem
        exact absurd hmem.1 hc2ne
  · -- the bucket stays: its key set shrinks by the evicted key
    rw [if_neg he]
    refine ⟨rfl, hlen_decomp, ?_, h2l, ?_, ?_, ?_⟩
    · rw [fst_mapSet_mem _ _ _ (mapLookup_some_mem hksb)]; exact h1
    · have hs := totalCount_mapSet_of_lookup (ksb.erase x.key) hksb
      show totalCount (mapSet st.cacheMap x.collection (ksb.erase x.key)) =
        st.lruList.dropLast.length
      omega
    · intro it hit
      obtain ⟨ks2, hks2, hk2⟩ := h5 it (by rw [hdecomp]; exact List.mem_append_left _ hit)
      by_cases hcc : it.collection = x.collection
      · rw [hcc, hksb] at hks2
        cases hks2
        refine ⟨ksb.erase x.key, by rw [hcc]; exact mapLookup_mapSet_self _ _ _, ?_⟩
        have hkne : it.key ≠ x.key := by
          intro heq
          exact hpairne it hit (by rw [hcc, heq])
        exact (List.Nodup.mem_erase_iff hndb).mpr ⟨hkne, hk2⟩
      · exact ⟨ks2, by rw [mapLookup_mapSet_ne _ _ _ _ hcc]; exact hks2, hk2⟩
    · intro c2 ks2 hlk2
      by_cases hcc : c2 = x.collection
      · rw [hcc, mapLookup_mapSet_self] at hlk2
        cases hlk2
        refine ⟨hndb.erase _, fun k2 hk2 => ?_⟩
        have hk2' := (List.Nodup.mem_erase_iff hndb).mp hk2
        have hp := (h6 _ _ hksb).2 k2 hk2'.2
        rw [hpairs_decomp] at hp
        rcases List.mem_append.mp hp with hmem | hmem
        · rw [hcc]; exact hmem
        · simp only [List.mem_singleton, Prod.mk.injEq] at hmem
          exact absurd hmem.2 hk2'.1
      · rw [mapLookup_mapSet_ne _ _ _ _ hcc] at hlk2
        obtain ⟨hnd2, hall2⟩ := h6 c2 ks2 hlk2
        refine ⟨hnd2, fun k2 hk2 => ?_⟩
        have hp := hall2 k2 hk2
        rw [hpairs_decomp] at hp
        rcases List.mem_append.mp hp with hmem | hmem
        · exact hmem
        · simp only [List.mem_singleton, Prod.mk.injEq] at hmem
          exact absurd hmem.1 hcc

lemma evictLRU_maxSize (st : CacheSt) : (evictLRU st).maxSize = st.maxSize := by
  unfold evictLRU
  cases st.lruList.getLast? <;> rfl

lemma set_newkey_inv (max : Nat) (lru : List CacheItem) (m0 : List (String × List String))
    (c k v : String) (ks : List String)
    (hlk : mapLookup m0 c = some ks)
    (hknotin : k ∉ ks)
    (h1 : (m0.map Prod.fst).Nodup)
    (h2 : (pairsOf lru).Nodup)
    (h3 : totalCount m0 = lru.length)
    (h4 : lru.length ≤ max)
    (h5 : ∀ it ∈ lru, ∃ ks2, mapLookup m0 it.collection = some ks2 ∧ it.key ∈ ks2)
    (h6 : ∀ c2 ks2, mapLookup m0 c2 = some ks2 →
            ks2.Nodup ∧ ∀ k2 ∈ ks2, (c2, k2) ∈ pairsOf lru) :
    CacheInv (if max < totalCount (mapSet m0 c (k :: ks))
              then evictLRU (CacheSt.mk max (CacheItem.mk c k v :: lru) (mapSet m0 c (k :: ks)))
              else CacheSt.mk max (CacheItem.mk c k v :: lru) (mapSet m0 c (k :: ks))) ∧
    (if max < totalCount (mapSet m0 c (k :: ks))
     then evictLRU (CacheSt.mk max (CacheItem.mk c k v :: lru) (mapSet m0 c (k :: ks)))
     else CacheSt.mk max (CacheItem.mk c k v :: lru) (mapSet m0 c (k :: ks))).maxSize = max := by
  have hcount1 : totalCount (mapSet m0 c (k :: ks)) = lru.length + 1 := by
    have := totalCount_mapSet_of_lookup (k :: ks) hlk
    simp only [List.length_cons] at this
    omega
  have hpairnotin : (c, k) ∉ pairsOf lru := by
    intro hmem
    obtain ⟨it, hit, heq⟩ := List.mem_map.mp hmem
    obtain ⟨hc, hk⟩ := Prod.mk.injEq .. ▸ heq
    obtain ⟨ks2, hks2, hkin⟩ := h5 it hit
    rw [hc, hlk] at hks2
    cases hks2
    rw [hk] at hkin
    exact hknotin hkin
  have g1 : ((mapSet m0 c (k :: ks)).map Prod.fst).Nodup := by
    rw [fst_mapSet_mem _ _ _ (mapLookup_some_mem hlk)]; exact h1
  have g2 : (pairsOf (CacheItem.mk c k v :: lru)).Nodup := by
    simp only [pairsOf, List.map_cons, List.nodup_cons]
    exact ⟨hpairnotin, h2⟩
  have g3 : totalCount (mapSet m0 c (k :: ks)) = (CacheItem.mk c k v :: lru).length := by
    rw [hcount1]; simp
  have g5 : ∀ it ∈ CacheItem.mk c k v :: lru,
      ∃ ks2, mapLookup (mapSet m0 c (k :: ks)) it.collection = some ks2 ∧ it.key ∈ ks2 := by
    intro it hit
    rcases List.mem_cons.mp hit with rfl | hit'
    · exact ⟨k :: ks, mapLookup_mapSet_self _ _ _, List.mem_cons_self _ _⟩
    · obtain ⟨ks2, hks2, hkin⟩ := h5 it hit'
      by_cases hcc : it.collection = c
      · rw [hcc, hlk] at hks2
        cases hks2
        exact ⟨k :: ks, by rw [hcc]; exact mapLookup_mapSet_self _ _ _,
          List.mem_cons_of_mem _ hkin⟩
      · exact ⟨ks2, by rw [mapLookup_mapSet_ne _ _ _ _ hcc]; exact hks2, hkin⟩
  have g6 : ∀ c2 ks2, mapLookup (mapSet m0 c (k :: ks)) c2 = some ks2 →
      ks2.Nodup ∧ ∀ k2 ∈ ks2, (c2, k2) ∈ pairsOf (CacheItem.mk c k v :: lru) := by
    intro c2 ks2 hlk2
    by_cases hcc : c2 = c
    · rw [hcc, mapLookup_mapSet_self] at hlk2
      cases hlk2
      refine ⟨List.nodup_cons.mpr ⟨hknotin, (h6 _ _ hlk).1⟩, ?_⟩
      intro k2 hk2
      rcases List.mem_cons.mp hk2 with rfl | hk2'
      · rw [hcc]
        simp [pairsOf]
      · have := (h6 _ _ hlk).2 k2 hk2'
        rw [hcc]
        simp only [pairsOf, List.map_cons, List.mem_cons]
        exact Or.inr this
    · rw [mapLookup_mapSet_ne _ _ _ _ hcc] at hlk2
      refine ⟨(h6 _ _ hlk2).1, fun k2 hk2 => ?_⟩
      have := (h6 _ _ hlk2).2 k2 hk2
      simp only [pairsOf, List.map_cons, List.mem_cons]
      exact Or.inr this
  by_cases hov : max < totalCount (mapSet m0 c (k :: ks))
  · rw [if_pos hov]
    have hspec := evict_spec (CacheSt.mk max (CacheItem.mk c k v :: lru) (mapSet m0 c (k :: ks)))
      g1 g2 g3 g5 g6 (List.cons_ne_nil _ _)
    obtain ⟨e0, e1, e2, e3, e4, e5, e6⟩ := hspec
    have e0' : (evictLRU (CacheSt.mk max (CacheItem.mk c k v :: lru)
        (mapSet m0 c (k :: ks)))).maxSize = max := e0
    have e1' : (evictLRU (CacheSt.mk max (CacheItem.mk c k v :: lru)
        (mapSet m0 c (k :: ks)))).lruList.length + 1 = lru.length + 1 := e1
    refine ⟨⟨e2, e3, e4, ?_, e5, e6⟩, e0⟩
    rw [e0']
    omega
  · rw [if_neg hov]
    exact ⟨⟨g1, g2, g3, by simp only []; omega, g5, g6⟩, rfl⟩

lemma inv_cacheSet (st : CacheSt) (c k v : String) (h : CacheInv st) :
    CacheInv (cacheSet st c k v) ∧ (cacheSet st c k v).maxSize = st.maxSize := by
  obtain ⟨h1, h2, h3, h4, h5, h6⟩ := h
  unfold cacheSet
  cases hl : mapLookup st.cacheMap c with
  | some ks0 =>
    dsimp only
    rw [hl]
    simp only [Option.getD_some]
    by_cases hk : k ∈ ks0
    · rw [if_pos hk]
      exact ⟨@inv_of_pairs_perm st
        (CacheSt.mk st.maxSize (moveToFrontUpd st.lruList c k v) st.cacheMap) rfl rfl
        (pairsOf_moveToFrontUpd st.lruList c k v) ⟨h1, h2, h3, h4, h5, h6⟩, rfl⟩
    · rw [if_neg hk]
      exact set_newkey_inv st.maxSize st.lruList st.cacheMap c k v ks0 hl hk h1 h2 h3 h4 h5 h6
  | none =>
    dsimp only
    rw [mapLookup_mapSet_self]
    simp only [Option.getD_some]
    rw [if_neg (List.not_mem_nil k)]
    have habs : c ∉ st.cacheMap.map Prod.fst := (mapLookup_none_iff _ _).mp hl
    have m1 : ((mapSet st.cacheMap c []).map Prod.fst).Nodup := by
      rw [fst_mapSet_not_mem _ _ _ habs]
      refine List.Nodup.append h1 (List.nodup_singleton c) ?_
      intro a ha hb
      simp only [List.mem_singleton] at hb
      exact habs (hb ▸ ha)
    have m3 : totalCount (mapSet st.cacheMap c []) = st.lruList.length := by
      rw [totalCount_mapSet_of_none [] hl]
      simpa using h3
    have m5 : ∀ it ∈ st.lruList,
        ∃ ks2, mapLookup (mapSet st.cacheMap c []) it.collection = some ks2 ∧ it.key ∈ ks2 := by
      intro it hit
      obtain ⟨ks2, hks2, hkin⟩ := h5 it hit
      have hcc : it.collection ≠ c := by
        intro heq
        rw [heq, hl] at hks2
        cases hks2
      exact ⟨ks2, by rw [mapLookup_mapSet_ne _ _ _ _ hcc]; exact hks2, hkin⟩
    have m6 : ∀ c2 ks2, mapLookup (mapSet st.cacheMap c []) c2 = some ks2 →
        ks2.Nodup ∧ ∀ k2 ∈ ks2, (c2, k2) ∈ pairsOf st.lruList := by
      intro c2 ks2 hlk2
      by_cases hcc : c2 = c
      · rw [hcc, mapLookup_mapSet_self] at hlk2
        cases hlk2
        exact ⟨List.nodup_nil, by intro k2 hk2; cases hk2⟩
      · rw [mapLookup_mapSet_ne _ _ _ _ hcc] at hlk2
        exact h6 c2 ks2 hlk2
    exact set_newkey_inv st.maxSize st.lruList (mapSet st.cacheMap c []) c k v []
      (mapLookup_mapSet_self _ _ _) (List.not_mem_nil k) m1 h2 m3 h4 m5 m6

lemma inv_runC_aux (ops : List COp) :
    ∀ st : CacheSt, CacheInv st →
      CacheInv (runC st ops) ∧ (runC st ops).maxSize = st.maxSize := by
  induction ops with
  | nil => intro st h; exact ⟨h, rfl⟩
  | cons op rest ih =>
    intro st h
    have hstep : CacheInv (stepC st op) ∧ (stepC st op).maxSize = st.maxSize := by
      cases op with
      | ins c k v => exact inv_cacheSet st c k v h
      | find c k =>
        exact ⟨inv_cacheGet st c k h, (cacheGet_snd_parts st c k).1⟩
    have hrec := ih (stepC st op) hstep.1
    have hrun : runC st (op :: rest) = runC (stepC st op) rest := rfl
    rw [hrun]
    exact ⟨hrec.1, by rw [hrec.2, hstep.2]⟩

/-- **C7.** (a) After any sequence of `Insert`/`Find` on a cache created
with maximum size `n`, the total entry count over all collections is at
most `n`; (b) each eviction removes exactly the tail of the recency
list; (c) the literal scenario: with `MaxSize = 3`, after inserting
`(A,1), (B,2), (C,3)`, finding `A` and inserting `(D,4)`, key `B` is
evicted while `A`, `C` and `D` remain findable. -/
theorem c7_cache_lru :
    (∀ (n : Nat) (ops : List COp),
        totalCount (runC (newCache n) ops).cacheMap ≤ n) ∧
    (∀ (st : CacheSt) (l : List CacheItem) (x : CacheItem),
        st.lruList = l ++ [x] → (evictLRU st).lruList = l) ∧
    ((FindInCache (runC (newCache 3)
        [COp.ins "col" "A" "1", COp.ins "col" "B" "2", COp.ins "col" "C" "3",
         COp.find "col" "A", COp.ins "col" "D" "4"]) "col" "B").1.toOption = none ∧
     (FindInCache (runC (newCache 3)
        [COp.ins "col" "A" "1", COp.ins "col" "B" "2", COp.ins "col" "C" "3",
         COp.find "col" "A", COp.ins "col" "D" "4"]) "col" "A").1.toOption = some "1" ∧
     (FindInCache (runC (newCache 3)
        [COp.ins "col" "A" "1", COp.ins "col" "B" "2", COp.ins "col" "C" "3",
         COp.find "col" "A", COp.ins "col" "D" "4"]) "col" "C").1.toOption = some "3" ∧
     (FindInCache (runC (newCache 3)
        [COp.ins "col" "A" "1", COp.ins "col" "B" "2", COp.ins "col" "C" "3",
         COp.find "col" "A", COp.ins "col" "D" "4"]) "col" "D").1.toOption = some "4") := by
  refine ⟨?_, ?_, ?_⟩
  · intro n ops
    obtain ⟨⟨_, _, h3, h4, _, _⟩, hmax⟩ := inv_runC_aux ops (newCache n) (inv_newCache n)
    rw [h3]
    rw [hmax] at h4
    exact h4
  · intro st l x hl
    unfold evictLRU
    rw [hl, List.getLast?_concat]
    dsimp only
    simp
  · exact ⟨rfl, rfl, rfl, rfl⟩

/-- Witness for C7 at a concrete eviction input. -/
theorem c7_cache_lru_witness :
    (evictLRU (CacheSt.mk 2 [CacheItem.mk "c" "a" "1", CacheItem.mk "c" "b" "2"]
        [("c", ["a", "b"])])).lruList = [CacheItem.mk "c" "a" "1"] :=
  c7_cache_lru.2.1
    (CacheSt.mk 2 [CacheItem.mk "c" "a" "1", CacheItem.mk "c" "b" "2"] [("c", ["a", "b"])])
    [CacheItem.mk "c" "a" "1"] (CacheItem.mk "c" "b" "2") rfl

/-- **C9.** On a state whose `CacheMap` has no bucket for collection `c`,
`InsertInCache` succeeds (creating the bucket and inserting the entry),
while `FindInCache`, `UpdateInCache` and `DeleteFromCache` all return an
error. -/
theorem c9_cache_insert_never_fails (st : CacheSt) (c k v : String)
    (hinv : CacheInv st) (hmax : 1 ≤ st.maxSize)
    (habs : mapLookup st.cacheMap c = none) :
    InsertInCache st c k v = Except.ok (cacheSet st c k v) ∧
    mapLookup (cacheSet st c k v).cacheMap c = some [k] ∧
    (∃ e, (FindInCache st c k).1 = Except.error e) ∧
    (∃ e, UpdateInCache st c k v = Except.error e) ∧
    (∃ e, DeleteFromCache st c k = Except.error e) := by
  obtain ⟨h1, h2, h3, h4, h5, h6⟩ := hinv
  have hget : cacheGet st c k = (none, st) := by
    unfold cacheGet
    rw [habs]
  refine ⟨rfl, ?_, ?_, ?_, ?_⟩
  · -- the bucket is created and holds exactly the new key
    unfold cacheSet
    rw [habs]
    dsimp only
    rw [mapLookup_mapSet_self]
    simp only [Option.getD_some]
    rw [if_neg (List.not_mem_nil k)]
    have hcount : totalCount (mapSet (mapSet st.cacheMap c []) c [k]) = st.lruList.length + 1 := by
      have hnone0 : totalCount (mapSet st.cacheMap c []) = totalCount st.cacheMap := by
        rw [totalCount_mapSet_of_none [] habs]; simp
      have := totalCount_mapSet_of_lookup [k] (mapLookup_mapSet_self st.cacheMap c [])
      simp only [List.length_nil, List.length_cons] at this
      omega
    by_cases hov : st.maxSize < totalCount (mapSet (mapSet st.cacheMap c []) c [k])
    · rw [if_pos hov]
      -- an eviction fires: the list was non-empty and its tail lies in
      -- some other collection, so the fresh bucket survives
      have hlru_ne : st.lruList ≠ [] := by
        intro hnil
        rw [hcount, hnil] at hov
        simp at hov
        omega
      have hdec : st.lruList = st.lruList.dropLast ++ [st.lruList.getLast hlru_ne] :=
        (List.dropLast_append_getLast hlru_ne).symm
      have hxmem : st.lruList.getLast hlru_ne ∈ st.lruList := List.getLast_mem hlru_ne
      have hxcol : (st.lruList.getLast hlru_ne).collection ≠ c := by
        intro heq
        obtain ⟨ks2, hks2, _⟩ := h5 _ hxmem
        rw [heq, habs] at hks2
        cases hks2
      have hlast1 : (CacheItem.mk c k v :: st.lruList).getLast? =
          some (st.lruList.getLast hlru_ne) := by
        conv_lhs => rw [hdec, ← List.cons_append]
        rw [List.getLast?_concat]
      have := @evict_lookup_ne (CacheSt.mk st.maxSize
          (CacheItem.mk c k v :: st.lruList) (mapSet (mapSet st.cacheMap c []) c [k]))
          (st.lruList.getLast hlru_ne) c hlast1 hxcol
      rw [this]
      exact mapLookup_mapSet_self _ _ _
    · rw [if_neg hov]
      exact mapLookup_mapSet_self _ _ _
  · exact ⟨"failed to find key", by unfold FindInCache; rw [hget]⟩
  · exact ⟨"key not found", by unfold UpdateInCache; rw [hget]⟩
  · exact ⟨"failed to find collection", by unfold DeleteFromCache; rw [habs]⟩

/-- Witness for C9 on the empty cache of capacity 1. -/
theorem c9_cache_insert_never_fails_witness :
    InsertInCache (newCache 1) "c" "k" "v" =
        Except.ok (cacheSet (newCache 1) "c" "k" "v") ∧
    mapLookup (cacheSet (newCache 1) "c" "k" "v").cacheMap "c" = some ["k"] ∧
    (∃ e, (FindInCache (newCache 1) "c" "k").1 = Except.error e) ∧
    (∃ e, UpdateInCache (newCache 1) "c" "k" "v" = Except.error e) ∧
    (∃ e, DeleteFromCache (newCache 1) "c" "k" = Except.error e) :=
  c9_cache_insert_never_fails (newCache 1) "c" "k" "v" (inv_newCache 1) (le_refl 1) rfl

/-! ### Delta codec: the encoder's operations cover the target -/

lemma commonPrefixLen_le_left : ∀ a b : List Nat, commonPrefixLen a b ≤ a.length := by
  intro a
  induction a with
  | nil => intro b; cases b <;> simp [commonPrefixLen]
  | cons x xs ih =>
    intro b
    cases b with
    | nil => simp [commonPrefixLen]
    | cons y ys =>
      by_cases h : x = y
      · simp only [commonPrefixLen, if_pos h, List.length_cons]
        exact Nat.succ_le_succ (ih ys)
      · simp [commonPrefixLen, h]

lemma commonPrefixLen_le_right : ∀ a b : List Nat, commonPrefixLen a b ≤ b.length := by
  intro a
  induction a with
  | nil => intro b; cases b <;> simp [commonPrefixLen]
  | cons x xs ih =>
    intro b
    cases b with
    | nil => simp [commonPrefixLen]
    | cons y ys =>
      by_cases h : x = y
      · simp only [commonPrefixLen, if_pos h, List.length_cons]
        exact Nat.succ_le_succ (ih ys)
      · simp [commonPrefixLen, h]

lemma commonPrefixLen_self : ∀ l : List Nat, commonPrefixLen l l = l.length := by
  intro l
  induction l with
  | nil => rfl
  | cons x xs ih => simp [commonPrefixLen, ih]

lemma commonPrefixLen_take_eq :
    ∀ a b : List Nat, a.take (commonPrefixLen a b) = b.take (commonPrefixLen a b) := by
  intro a
  induction a with
  | nil => intro b; cases b <;> simp [commonPrefixLen]
  | cons x xs ih =>
    intro b
    cases b with
    | nil => simp [commonPrefixLen]
    | cons y ys =>
      by_cases h : x = y
      · simp only [commonPrefixLen, if_pos h, List.take_succ_cons]
        rw [h, ih ys]
      · simp [commonPrefixLen, h]

lemma commonPrefixLen_ge_of_take_eq :
    ∀ (n : Nat) (a b : List Nat), n ≤ a.length → n ≤ b.length →
      a.take n = b.take n → n ≤ commonPrefixLen a b := by
  intro n
  induction n with
  | zero => intro a b _ _ _; exact Nat.zero_le _
  | succ n ih =>
    intro a b ha hb htake
    cases a with
    | nil => simp at ha
    | cons x xs =>
      cases b with
      | nil => simp at hb
      | cons y ys =>
        simp only [List.take_succ_cons, List.cons.injEq] at htake
        simp only [List.length_cons] at ha hb
        simp only [commonPrefixLen, if_pos htake.1]
        exact Nat.succ_le_succ (ih xs ys (Nat.le_of_succ_le_succ ha)
          (Nat.le_of_succ_le_succ hb) htake.2)

lemma matchLenAt_le (base target : List Nat) (bi ti : Nat) :
    matchLenAt base target bi ti ≤ target.length - ti := by
  have := commonPrefixLen_le_right (base.drop bi) (target.drop ti)
  simpa [matchLenAt, List.length_drop] using this

lemma matchLenAt_le_base (base target : List Nat) (bi ti : Nat) :
    matchLenAt base target bi ti ≤ base.length - bi := by
  have := commonPrefixLen_le_left (base.drop bi) (target.drop ti)
  simpa [matchLenAt, List.length_drop] using this

lemma matchLenAt_take_eq (base target : List Nat) (bi ti : Nat) :
    (base.drop bi).take (matchLenAt base target bi ti) =
      (target.drop ti).take (matchLenAt base target bi ti) :=
  commonPrefixLen_take_eq (base.drop bi) (target.drop ti)

lemma bmStep_foldl_stay (base target : List Nat) (ti : Nat) :
    ∀ (l : List Nat) (acc : Nat × Nat),
      (∀ bi ∈ l, matchLenAt base target bi ti ≤ acc.1) →
      l.foldl (bmStep base target ti) acc = acc := by
  intro l
  induction l with
  | nil => intro acc _; rfl
  | cons x xs ih =>
    intro acc hub
    have hx : matchLenAt base target x ti ≤ acc.1 := hub x (List.mem_cons_self _ _)
    have hstep : bmStep base target ti acc x = acc := by
      simp only [bmStep]
      rw [if_neg (by omega)]
    rw [List.foldl_cons, hstep]
    exact ih acc (fun bi hbi => hub bi (List.mem_cons_of_mem _ hbi))

lemma bmStep_foldl_le (base target : List Nat) (ti : Nat) :
    ∀ (l : List Nat) (acc : Nat × Nat),
      acc.1 ≤ (l.foldl (bmStep base target ti) acc).1 ∧
      ∀ bi ∈ l, matchLenAt base target bi ti ≤ (l.foldl (bmStep base target ti) acc).1 := by
  intro l
  induction l with
  | nil => intro acc; exact ⟨Nat.le_refl _, by intro bi h; cases h⟩
  | cons x xs ih =>
    intro acc
    rw [List.foldl_cons]
    have hstep1 : acc.1 ≤ (bmStep base target ti acc x).1 := by
      simp only [bmStep]
      by_cases h : acc.1 < matchLenAt base target x ti
      · rw [if_pos h]; omega
      · rw [if_neg h]
    have hstepx : matchLenAt base target x ti ≤ (bmStep base target ti acc x).1 := by
      simp only [bmStep]
      by_cases h : acc.1 < matchLenAt base target x ti
      · rw [if_pos h]
      · rw [if_neg h]; omega
    obtain ⟨h1, h2⟩ := ih (bmStep base target ti acc x)
    refine ⟨Nat.le_trans hstep1 h1, ?_⟩
    intro bi hbi
    rcases List.mem_cons.mp hbi with rfl | hbi'
    · exact Nat.le_trans hstepx h1
    · exact h2 bi hbi'

lemma bmStep_foldl_spec (base target : List Nat) (ti : Nat) :
    ∀ (l : List Nat), (∀ bi ∈ l, bi < base.length) →
      ∀ acc : Nat × Nat,
      (acc = (0, 0) ∨ (acc.2 < base.length ∧ acc.1 = matchLenAt base target acc.2 ti)) →
      (l.foldl (bmStep base target ti) acc = (0, 0) ∨
        ((l.foldl (bmStep base target ti) acc).2 < base.length ∧
         (l.foldl (bmStep base target ti) acc).1 =
           matchLenAt base target (l.foldl (bmStep base target ti) acc).2 ti)) := by
  intro l
  induction l with
  | nil => intro _ acc h; exact h
  | cons x xs ih =>
    intro hmem acc hacc
    rw [List.foldl_cons]
    refine ih (fun bi hbi => hmem bi (List.mem_cons_of_mem _ hbi)) _ ?_
    simp only [bmStep]
    by_cases h : acc.1 < matchLenAt base target x ti
    · rw [if_pos h]
      exact Or.inr ⟨hmem x (List.mem_cons_self _ _), rfl⟩
    · rw [if_neg h]
      exact hacc

lemma bestMatch_spec (base target : List Nat) (ti : Nat) :
    bestMatch base target ti = (0, 0) ∨
      ((bestMatch base target ti).2 < base.length ∧
       (bestMatch base target ti).1 =
         matchLenAt base target (bestMatch base target ti).2 ti) :=
  bmStep_foldl_spec base target ti (List.range base.length)
    (fun bi hbi => List.mem_range.mp hbi) (0, 0) (Or.inl rfl)

lemma bestMatch_ge (base target : List Nat) (ti bi : Nat) (h : bi < base.length) :
    matchLenAt base target bi ti ≤ (bestMatch base target ti).1 :=
  (bmStep_foldl_le base target ti (List.range base.length) (0, 0)).2 bi
    (List.mem_range.mpr h)

lemma hasMatch4_le_bestMatch (base target : List Nat) (ti : Nat)
    (ht : ti + 4 ≤ target.length) (h : hasMatch4 base target ti = true) :
    4 ≤ (bestMatch base target ti).1 := by
  obtain ⟨bi, hbi, hcond⟩ := List.any_eq_true.mp h
  rw [Bool.and_eq_true, decide_eq_true_eq, decide_eq_true_eq] at hcond
  obtain ⟨hlen, htake⟩ := hcond
  have hmem : bi < base.length := List.mem_range.mp hbi
  have h4 : 4 ≤ matchLenAt base target bi ti := by
    apply commonPrefixLen_ge_of_take_eq 4
    · rw [List.length_drop]; omega
    · rw [List.length_drop]; omega
    · exact htake
  exact Nat.le_trans h4 (bestMatch_ge base target ti bi hmem)

lemma insertRunEnd_aux (base target : List Nat) (start : Nat) :
    ∀ (fuel ti : Nat), ti ≤ target.length → ti - start ≤ 126 →
      target.length - ti < fuel →
      ti ≤ insertRunEnd base target start ti fuel ∧
      insertRunEnd base target start ti fuel ≤ target.length ∧
      insertRunEnd base target start ti fuel - start ≤ 127 := by
  intro fuel
  induction fuel with
  | zero => intro ti _ _ h; omega
  | succ fuel ih =>
    intro ti hle hrun hfuel
    by_cases hlt : ti < target.length
    · simp only [insertRunEnd, if_pos hlt]
      by_cases hfound : ti + 4 ≤ target.length ∧ hasMatch4 base target ti = true
      · rw [if_pos hfound]
        exact ⟨Nat.le_refl _, hle, by omega⟩
      · rw [if_neg hfound]
        by_cases hbreak : ti + 1 - start ≥ 127
        · rw [if_pos hbreak]
          exact ⟨Nat.le_succ _, by omega, by omega⟩
        · rw [if_neg hbreak]
          have := ih (ti + 1) (by omega) (by omega) (by omega)
          exact ⟨by omega, this.2.1, this.2.2⟩
    · simp only [insertRunEnd, if_neg hlt]
      exact ⟨Nat.le_refl _, hle, by omega⟩

lemma insertRunEnd_progress (base target : List Nat) (ti : Nat)
    (hlt : ti < target.length)
    (hnot : ¬(ti + 4 ≤ target.length ∧ hasMatch4 base target ti = true)) :
    ti + 1 ≤ insertRunEnd base target ti ti (target.length + 1) ∧
    insertRunEnd base target ti ti (target.length + 1) ≤ target.length ∧
    insertRunEnd base target ti ti (target.length + 1) - ti ≤ 127 := by
  have hstep : insertRunEnd base target ti ti (target.length + 1) =
      insertRunEnd base target ti (ti + 1) target.length := by
    simp only [insertRunEnd, if_pos hlt, if_neg hnot]
    rw [if_neg (by omega)]
  rw [hstep]
  exact insertRunEnd_aux base target ti target.length (ti + 1) (by omega) (by omega)
    (by omega)

lemma opsLoop_spec (base target : List Nat) (hbase : base.length < 2 ^ 24) :
    ∀ (fuel ti : Nat), target.length - ti < fuel →
      ((opsLoop base target ti fuel).map (opEval base)).flatten = target.drop ti ∧
      opsValid base (opsLoop base target ti fuel) := by
  intro fuel
  induction fuel with
  | zero => intro ti h; omega
  | succ fuel ih =>
    intro ti hfuel
    by_cases hlt : ti < target.length
    · have hbest4 : 4 ≤ (if 4 ≤ target.length - ti then bestMatch base target ti
          else ((0, 0) : Nat × Nat)).1 →
          (if 4 ≤ target.length - ti then bestMatch base target ti
            else ((0, 0) : Nat × Nat)) = bestMatch base target ti ∧
            4 ≤ (bestMatch base target ti).1 := by
        by_cases h4 : 4 ≤ target.length - ti
        · rw [if_pos h4]; exact fun h => ⟨rfl, h⟩
        · rw [if_neg h4]; intro h; simp at h
      by_cases hcopy : 4 ≤ (if 4 ≤ target.length - ti then bestMatch base target ti
          else ((0, 0) : Nat × Nat)).1
      · -- copy branch
        obtain ⟨hbeq, hb4⟩ := hbest4 hcopy
        have hloop : opsLoop base target ti (fuel + 1) =
            DeltaOp.copy (bestMatch base target ti).2 (bestMatch base target ti).1 ::
              opsLoop base target (ti + (bestMatch base target ti).1) fuel := by
          simp only [opsLoop, if_pos hlt]
          rw [hbeq, if_pos hb4]
        rcases bestMatch_spec base target ti with hzero | ⟨hoff, hlen⟩
        · rw [hzero] at hb4; simp at hb4
        · set m := (bestMatch base target ti).1 with hm
          set off := (bestMatch base target ti).2 with hoffdef
          have hmle : m ≤ target.length - ti := hlen ▸ matchLenAt_le base target off ti
          have hmleb : m ≤ base.length - off := hlen ▸ matchLenAt_le_base base target off ti
          have hrec := ih (ti + m) (by omega)
          rw [hloop]
          constructor
          · simp only [List.map_cons, List.flatten_cons, opEval]
            rw [hrec.1]
            have htake : (base.drop off).take m = (target.drop ti).take m := by
              rw [hlen]
              exact matchLenAt_take_eq base target off ti
            rw [htake]
            have : (target.drop ti).take m ++ (target.drop ti).drop m = target.drop ti :=
              List.take_append_drop m (target.drop ti)
            rw [List.drop_drop] at this
            exact this
          · intro op hop
            rcases List.mem_cons.mp hop with rfl | hop'
            · exact ⟨by omega, by omega, by omega⟩
            · exact hrec.2 op hop'
      · -- insert branch
        have hnot : ¬(ti + 4 ≤ target.length ∧ hasMatch4 base target ti = true) := by
          intro ⟨hc1, hc2⟩
          apply hcopy
          rw [if_pos (by omega)]
          exact hasMatch4_le_bestMatch base target ti hc1 hc2
        obtain ⟨he1, he2, he3⟩ := insertRunEnd_progress base target ti hlt hnot
        set e := insertRunEnd base target ti ti (target.length + 1) with hedef
        have hloop : opsLoop base target ti (fuel + 1) =
            DeltaOp.insert ((target.drop ti).take (e - ti)) ::
              opsLoop base target e fuel := by
          simp only [opsLoop, if_pos hlt]
          rw [if_neg hcopy]
        have hrec := ih e (by omega)
        rw [hloop]
        constructor
        · simp only [List.map_cons, List.flatten_cons, opEval]
          rw [hrec.1]
          have : (target.drop ti).take (e - ti) ++ (target.drop ti).drop (e - ti) =
              target.drop ti := List.take_append_drop _ _
          rw [List.drop_drop] at this
          have heq : ti + (e - ti) = e := by omega
          rw [heq] at this
          exact this
        · intro op hop
          rcases List.mem_cons.mp hop with rfl | hop'
          · refine ⟨?_, ?_⟩
            · rw [List.length_take, List.length_drop]
              omega
            · rw [List.length_take, List.length_drop]
              omega
          · exact hrec.2 op hop'
    · simp only [opsLoop, if_neg hlt]
      refine ⟨?_, by intro op hop; cases hop⟩
      rw [List.drop_eq_nil_of_le (by omega)]
      rfl

/-! ### Delta codec: serialization round-trips through the decoder -/

lemma leBytesAux_length_le : ∀ (rem v : Nat) (first : Bool),
    (leBytesAux v rem first).length ≤ rem := by
  intro rem
  induction rem with
  | zero => intro v first; simp [leBytesAux]
  | succ rem ih =>
    intro v first
    simp only [leBytesAux]
    by_cases h : v > 0 ∨ first = true
    · rw [if_pos h]
      simpa using Nat.succ_le_succ (ih (v / 256) false)
    · rw [if_neg h]
      simp

lemma leBytesAux_length_pos (rem v : Nat) (h : 1 ≤ rem) :
    1 ≤ (leBytesAux v rem true).length := by
  cases rem with
  | zero => omega
  | succ rem => simp [leBytesAux]

lemma decodeLE_leBytesAux : ∀ (rem v : Nat) (first : Bool), v < 256 ^ rem →
    decodeLE (leBytesAux v rem first) = v := by
  intro rem
  induction rem with
  | zero =>
    intro v first h
    simp only [pow_zero, Nat.lt_one_iff] at h
    subst h
    rfl
  | succ rem ih =>
    intro v first h
    simp only [leBytesAux]
    by_cases hcond : v > 0 ∨ first = true
    · rw [if_pos hcond]
      have hv : v / 256 < 256 ^ rem := by
        apply Nat.div_lt_of_lt_mul
        rw [← pow_succ']
        exact h
      simp only [decodeLE, ih (v / 256) false hv]
      omega
    · rw [if_neg hcond]
      push_neg at hcond
      have : v = 0 := by omega
      subst this
      rfl

lemma cmdOf_facts (ko ks : Nat) (hko1 : 1 ≤ ko) (hko4 : ko ≤ 4)
    (hks1 : 1 ≤ ks) (hks3 : ks ≤ 3) :
    cmdOf ko ks ≠ 0 ∧ Nat.testBit (cmdOf ko ks) 7 = true ∧
    (∀ j, j < 4 → Nat.testBit (cmdOf ko ks) j = decide (j < ko)) ∧
    (∀ j, j < 3 → Nat.testBit (cmdOf ko ks) (4 + j) = decide (j < ks)) := by
  interval_cases ko <;> interval_cases ks <;>
    exact ⟨by decide, by decide, by decide, by decide⟩

lemma readFlagged_spec (cmd bitBase : Nat) :
    ∀ (count j : Nat) (bs tail : List Nat), bs.length ≤ count →
      (∀ i, i < count → Nat.testBit cmd (bitBase + j + i) = decide (i < bs.length)) →
      readFlagged cmd bitBase j count (bs ++ tail) = some (256 ^ j * decodeLE bs, bs.length) := by
  intro count
  induction count with
  | zero =>
    intro j bs tail hlen _
    have hbs : bs = [] := List.length_eq_zero.mp (Nat.le_zero.mp hlen)
    subst hbs
    simp [readFlagged, decodeLE]
  | succ count ih =>
    intro j bs tail hlen hbits
    cases bs with
    | nil =>
      have hbit : Nat.testBit cmd (bitBase + j) = false := by
        have := hbits 0 (by omega)
        simpa using this
      simp only [readFlagged, List.nil_append]
      rw [if_neg (by rw [hbit]; exact Bool.false_ne_true)]
      have hrec := ih (j + 1) [] tail (by simp) (fun i hi => by
        have h1 := hbits (i + 1) (by omega)
        have harr : bitBase + j + (i + 1) = bitBase + (j + 1) + i := by omega
        rw [harr] at h1
        simpa using h1)
      simpa [decodeLE] using hrec
    | cons b bs' =>
      have hbit : Nat.testBit cmd (bitBase + j) = true := by
        have := hbits 0 (by omega)
        simpa using this
      simp only [readFlagged, List.cons_append]
      rw [if_pos hbit]
      have hrec := ih (j + 1) bs' tail
        (by simpa using Nat.le_of_succ_le_succ (by simpa using hlen))
        (fun i hi => by
          have h1 := hbits (i + 1) (by omega)
          have harr : bitBase + j + (i + 1) = bitBase + (j + 1) + i := by omega
          rw [harr] at h1
          rw [h1]
          simp only [List.length_cons]
          by_cases hlt : i < bs'.length
          · rw [decide_eq_true (by omega : i + 1 < bs'.length + 1), decide_eq_true hlt]
          · rw [decide_eq_false (by omega : ¬(i + 1 < bs'.length + 1)), decide_eq_false hlt])
      rw [hrec]
      simp only [decodeLE, List.length_cons]
      have harith : 256 ^ (j + 1) * decodeLE bs' + b * 256 ^ j =
          256 ^ j * (b + 256 * decodeLE bs') := by ring
      rw [harith]

lemma encodeInsertLoop_small (d : List Nat) (h1 : 1 ≤ d.length) (h127 : d.length ≤ 127) :
    encodeInsertLoop (d.length + 1) d = d.length :: d := by
  cases d with
  | nil => simp at h1
  | cons x xs =>
    simp only [encodeInsertLoop]
    rw [min_eq_left h127]
    rw [List.take_length, List.drop_length]
    simp [encodeInsertLoop]

lemma encodeOps_length_ge (base : List Nat) :
    ∀ ops : List DeltaOp, opsValid base ops → ops.length ≤ (encodeOps ops).length := by
  intro ops
  induction ops with
  | nil => intro _; simp [encodeOps]
  | cons op rest ih =>
    intro hvalid
    have hrest := ih (fun o ho => hvalid o (List.mem_cons_of_mem _ ho))
    cases op with
    | copy off sz =>
      simp only [encodeOps, encodeCopy, List.length_cons, List.length_append]
      omega
    | insert data =>
      obtain ⟨hd1, hd127⟩ := hvalid _ (List.mem_cons_self _ _)
      rw [encodeOps, encodeInsertLoop_small data hd1 hd127]
      simp only [List.length_cons, List.length_append]
      omega

lemma applyDeltaLoop_encodeOps (base : List Nat) (hbase : base.length < 2 ^ 24) :
    ∀ ops : List DeltaOp, opsValid base ops → ∀ (acc : List Nat) (fuel : Nat),
      ops.length < fuel →
      applyDeltaLoop base fuel (encodeOps ops) acc =
        Except.ok (acc ++ (ops.map (opEval base)).flatten) := by
  intro ops
  induction ops with
  | nil =>
    intro _ acc fuel _
    cases fuel <;> simp [encodeOps, applyDeltaLoop]
  | cons op rest ih =>
    intro hvalid acc fuel hf
    obtain ⟨fuel, rfl⟩ : ∃ f, fuel = f + 1 := ⟨fuel - 1, by omega⟩
    have hrestvalid : opsValid base rest := fun o ho => hvalid o (List.mem_cons_of_mem _ ho)
    cases op with
    | copy off sz =>
      obtain ⟨hbound, hsz1, hsz24⟩ := hvalid _ (List.mem_cons_self _ _)
      have hko1 : 1 ≤ (leBytesAux off 4 true).length := leBytesAux_length_pos 4 off (by omega)
      have hko4 : (leBytesAux off 4 true).length ≤ 4 := leBytesAux_length_le 4 off true
      have hks1 : 1 ≤ (leBytesAux sz 3 true).length := leBytesAux_length_pos 3 sz (by omega)
      have hks3 : (leBytesAux sz 3 true).length ≤ 3 := leBytesAux_length_le 3 sz true
      obtain ⟨hcmd0, hcmd7, hcmdoff, hcmdsz⟩ :=
        cmdOf_facts (leBytesAux off 4 true).length (leBytesAux sz 3 true).length
          hko1 hko4 hks1 hks3
      have hoffdec : decodeLE (leBytesAux off 4 true) = off :=
        decodeLE_leBytesAux 4 off true (by norm_num; omega)
      have hszdec : decodeLE (leBytesAux sz 3 true) = sz :=
        decodeLE_leBytesAux 3 sz true (by norm_num at hsz24 ⊢; omega)
      have hstream : encodeOps (DeltaOp.copy off sz :: rest) =
          cmdOf (leBytesAux off 4 true).length (leBytesAux sz 3 true).length ::
            (leBytesAux off 4 true ++ (leBytesAux sz 3 true ++ encodeOps rest)) := by
        simp [encodeOps, encodeCopy, List.append_assoc]
      rw [hstream]
      simp only [applyDeltaLoop]
      rw [if_neg hcmd0, if_pos hcmd7]
      have hread1 := readFlagged_spec
        (cmdOf (leBytesAux off 4 true).length (leBytesAux sz 3 true).length) 0 4 0
        (leBytesAux off 4 true) (leBytesAux sz 3 true ++ encodeOps rest) hko4
        (fun i hi => by simpa using hcmdoff i hi)
      rw [hread1]
      simp only [pow_zero, one_mul, hoffdec]
      rw [List.drop_left]
      have hread2 := readFlagged_spec
        (cmdOf (leBytesAux off 4 true).length (leBytesAux sz 3 true).length) 4 3 0
        (leBytesAux sz 3 true) (encodeOps rest) hks3
        (fun i hi => by simpa using hcmdsz i hi)
      rw [hread2]
      simp only [pow_zero, one_mul, hszdec]
      rw [if_neg (by omega : ¬ sz = 0)]
      rw [if_neg (by omega : ¬ base.length < off + sz)]
      have hdrop : (leBytesAux off 4 true ++ (leBytesAux sz 3 true ++ encodeOps rest)).drop
          ((leBytesAux off 4 true).length + (leBytesAux sz 3 true).length) =
          encodeOps rest := by
        rw [← List.append_assoc, ← List.length_append, List.drop_left]
      rw [hdrop]
      rw [ih hrestvalid (acc ++ (base.drop off).take sz) fuel (by simpa using Nat.lt_of_succ_lt_succ (by simpa using hf))]
      simp [opEval, List.append_assoc]
    | insert data =>
      obtain ⟨hd1, hd127⟩ := hvalid _ (List.mem_cons_self _ _)
      have hstream : encodeOps (DeltaOp.insert data :: rest) =
          data.length :: (data ++ encodeOps rest) := by
        rw [encodeOps, encodeInsertLoop_small data hd1 hd127]
        simp [List.append_assoc]
      rw [hstream]
      simp only [applyDeltaLoop]
      rw [if_neg (by omega : ¬ data.length = 0)]
      rw [if_neg (by
        rw [Nat.testBit_lt_two_pow]
        · exact Bool.false_ne_true
        · omega)]
      rw [if_neg (by simp only [List.length_append]; omega :
        ¬ (data ++ encodeOps rest).length < data.length)]
      rw [List.take_left, List.drop_left]
      rw [ih hrestvalid (acc ++ data) fuel (by simpa using Nat.lt_of_succ_lt_succ (by simpa using hf))]
      simp [opEval, List.append_assoc]

lemma u32leDecode_u32le (n : Nat) : u32leDecode (u32le n) = n % 2 ^ 32 := by
  simp only [u32le, u32leDecode, List.getD_cons_zero, List.getD_cons_succ]
  omega

lemma computeDelta_take4 (base target : List Nat) :
    (computeDelta base target).take 4 = u32le base.length := by
  rw [computeDelta, show (4 : Nat) = (u32le base.length).length from rfl]
  exact List.take_left _ _

lemma computeDelta_drop4_take4 (base target : List Nat) :
    ((computeDelta base target).drop 4).take 4 = u32le target.length := by
  have hdrop : (computeDelta base target).drop 4 =
      u32le target.length ++ encodeOps (computeDeltaOperations base target) := by
    rw [computeDelta, List.append_assoc,
      show (4 : Nat) = (u32le base.length).length from rfl]
    exact List.drop_left _ _
  rw [hdrop, show (4 : Nat) = (u32le target.length).length from rfl]
  exact List.take_left _ _

lemma computeDelta_drop8 (base target : List Nat) :
    (computeDelta base target).drop 8 = encodeOps (computeDeltaOperations base target) := by
  rw [computeDelta,
    show (8 : Nat) = (u32le base.length ++ u32le target.length).length from rfl]
  exact List.drop_left _ _

lemma computeDelta_length (base target : List Nat) :
    (computeDelta base target).length =
      8 + (encodeOps (computeDeltaOperations base target)).length := by
  simp only [computeDelta, List.length_append, u32le, List.length_cons, List.length_nil]

/-- **C1** (amended: the base must be shorter than `2^24` bytes and the
target shorter than `2^32` bytes).  Under those bounds, `applyDelta`
applied to a `computeDelta` delta reconstructs the target exactly,
instruction by instruction: the encoder's copies stay inside the base
with sizes below the three-byte cap and its literal runs are 1–127
bytes, so the decoder's flagged-byte reads invert the encoder's
serialization and the reassembled bytes concatenate to the target. -/
theorem c1_delta_roundtrip (base target : List Nat)
    (hb : base.length < 2 ^ 24) (ht : target.length < 2 ^ 32) :
    applyDelta base (computeDelta base target) = Except.ok target := by
  have hspec := opsLoop_spec base target hb (target.length + 1) 0 (by omega)
  have hcover : ((computeDeltaOperations base target).map (opEval base)).flatten =
      target.drop 0 := hspec.1
  have hvalid : opsValid base (computeDeltaOperations base target) := hspec.2
  rw [List.drop_zero] at hcover
  have hfuel : (computeDeltaOperations base target).length <
      (computeDelta base target).length + 1 := by
    have h1 := encodeOps_length_ge base _ hvalid
    have h2 := computeDelta_length base target
    omega
  have htake4 : u32leDecode ((computeDelta base target).take 4) = base.length := by
    rw [computeDelta_take4, u32leDecode_u32le, Nat.mod_eq_of_lt (by omega)]
  have hsz : u32leDecode (((computeDelta base target).drop 4).take 4) = target.length := by
    rw [computeDelta_drop4_take4, u32leDecode_u32le, Nat.mod_eq_of_lt ht]
  rw [applyDelta]
  rw [if_neg (by rw [computeDelta_length]; omega)]
  rw [if_neg (not_ne_iff.mpr htake4)]
  rw [computeDelta_drop8]
  rw [applyDeltaLoop_encodeOps base hb _ hvalid [] _ hfuel]
  simp only [List.nil_append]
  rw [hcover]
  rw [if_neg (not_ne_iff.mpr hsz.symm)]

/-- Witness for C1 on the spec's literal example pair. -/
theorem c1_delta_roundtrip_witness :
    applyDelta [1, 2, 3, 4, 5] (computeDelta [1, 2, 3, 4, 5] [9, 1, 2, 3, 4, 5]) =
      Except.ok [9, 1, 2, 3, 4, 5] :=
  c1_delta_roundtrip [1, 2, 3, 4, 5] [9, 1, 2, 3, 4, 5] (by decide) (by decide)

lemma commonPrefixLen_replicate : ∀ k m : Nat,
    commonPrefixLen (List.replicate k 0) (List.replicate m 0) = min k m := by
  intro k
  induction k with
  | zero => intro m; simp [commonPrefixLen]
  | succ k ih =>
    intro m
    cases m with
    | zero => simp [commonPrefixLen, List.replicate_succ]
    | succ m =>
      simp only [List.replicate_succ, commonPrefixLen, eq_self_iff_true, if_true, ih m]
      omega

lemma matchLenAt_replicate (N bi : Nat) (hbi : bi ≤ N) :
    matchLenAt (List.replicate N 0) (List.replicate N 0) bi 0 = N - bi := by
  rw [matchLenAt, List.drop_zero, List.drop_replicate, commonPrefixLen_replicate]
  omega

lemma bestMatch_replicate (N : Nat) (hN : 0 < N) :
    bestMatch (List.replicate N 0) (List.replicate N 0) 0 = (N, 0) := by
  obtain ⟨n, rfl⟩ : ∃ n, N = n + 1 := ⟨N - 1, by omega⟩
  rw [bestMatch, List.length_replicate, List.range_succ_eq_map, List.foldl_cons]
  have hstep : bmStep (List.replicate (n + 1) 0) (List.replicate (n + 1) 0) 0 (0, 0) 0 =
      (n + 1, 0) := by
    simp only [bmStep, matchLenAt_replicate (n + 1) 0 (by omega), Nat.sub_zero]
    rw [if_pos (by omega)]
  rw [hstep]
  apply bmStep_foldl_stay
  intro bi hbi
  obtain ⟨j, hj, rfl⟩ := List.mem_map.mp hbi
  have hjn : j < n := List.mem_range.mp hj
  have hml := matchLenAt_replicate (n + 1) j.succ (by omega)
  rw [hml]
  show n + 1 - j.succ ≤ n + 1
  omega

lemma opsLoop_at_end (base target : List Nat) (ti fuel : Nat) (h : target.length ≤ ti) :
    opsLoop base target ti fuel = [] := by
  cases fuel with
  | zero => rfl
  | succ fuel =>
    simp only [opsLoop]
    rw [if_neg (by omega)]

lemma opsLoop_replicate_step (fuel : Nat) :
    opsLoop (List.replicate (2 ^ 24) 0) (List.replicate (2 ^ 24) 0) 0 (fuel + 1) =
      DeltaOp.copy 0 (2 ^ 24) ::
        opsLoop (List.replicate (2 ^ 24) 0) (List.replicate (2 ^ 24) 0) (0 + 2 ^ 24)
          fuel := by
  simp only [opsLoop, List.length_replicate]
  rw [if_pos (by norm_num : (0 : Nat) < 2 ^ 24)]
  rw [if_pos (by norm_num : (4 : Nat) ≤ 2 ^ 24 - 0)]
  rw [bestMatch_replicate (2 ^ 24) (by norm_num)]
  rw [if_pos (by norm_num : (4 : Nat) ≤ ((2 ^ 24 : Nat), (0 : Nat)).1)]

lemma computeDeltaOperations_replicate :
    computeDeltaOperations (List.replicate (2 ^ 24) 0) (List.replicate (2 ^ 24) 0) =
      [DeltaOp.copy 0 (2 ^ 24)] := by
  rw [computeDeltaOperations, List.length_replicate, opsLoop_replicate_step,
    opsLoop_at_end _ _ _ _ (by rw [List.length_replicate]; omega)]

lemma encodeOps_replicate :
    encodeOps [DeltaOp.copy 0 (2 ^ 24)] = [241, 0, 0, 0, 0] := by decide

/-- Counterexample for C1 as stated: on a base and target of `2^24`
identical bytes, the encoder emits one copy of size `2^24`, whose three
size bytes are all zero; the decoder reads size `0` and substitutes
`65536`, so the rebuilt result has the wrong length and `applyDelta`
fails instead of returning the target. -/
theorem c1_delta_roundtrip_counterexample :
    applyDelta (List.replicate (2 ^ 24) 0)
        (computeDelta (List.replicate (2 ^ 24) 0) (List.replicate (2 ^ 24) 0)) =
      Except.error DeltaErr.resultSizeMismatch := by
  have hdelta : computeDelta (List.replicate (2 ^ 24) 0) (List.replicate (2 ^ 24) 0) =
      [0, 0, 0, 1, 0, 0, 0, 1, 241, 0, 0, 0, 0] := by
    rw [computeDelta, computeDeltaOperations_replicate, encodeOps_replicate,
      List.length_replicate]
    decide
  have h1 : readFlagged 241 0 0 4 [0, 0, 0, 0] = some (0, 1) := by decide
  have h2 : readFlagged 241 4 0 3 (List.drop 1 [0, 0, 0, 0]) = some (0, 3) := by decide
  have hloop : ∀ fuel : Nat,
      applyDeltaLoop (List.replicate (2 ^ 24) 0) (fuel + 1) [241, 0, 0, 0, 0] [] =
        Except.ok (List.replicate 65536 0) := by
    intro fuel
    simp only [applyDeltaLoop]
    rw [if_neg (by decide : ¬(241 = 0))]
    rw [if_pos (by decide : Nat.testBit 241 7 = true)]
    rw [h1]
    simp only [h2]
    simp only [if_true]
    rw [if_neg (by rw [List.length_replicate]; norm_num :
      ¬(List.replicate (2 ^ 24) (0 : Nat)).length < 0 + 65536)]
    rw [show List.drop (1 + 3) ([0, 0, 0, 0] : List Nat) = ([] : List Nat) from rfl]
    simp only [applyDeltaLoop, List.nil_append, List.drop_zero, List.take_replicate]
    norm_num
  rw [hdelta, applyDelta]
  rw [if_neg (by decide : ¬([0, 0, 0, 1, 0, 0, 0, 1, 241, 0, 0, 0, 0] : List Nat).length < 8)]
  rw [if_neg (not_ne_iff.mpr (by rw [List.length_replicate]; decide))]
  rw [show ([0, 0, 0, 1, 0, 0, 0, 1, 241, 0, 0, 0, 0] : List Nat).drop 8 =
    [241, 0, 0, 0, 0] from rfl]
  rw [show ([0, 0, 0, 1, 0, 0, 0, 1, 241, 0, 0, 0, 0] : List Nat).length + 1 =
    13 + 1 from rfl]
  rw [hloop 13]
  dsimp only
  rw [if_pos (by rw [List.length_replicate]; decide)]

lemma storeLookup_mem {st : OStore} {k v : List Nat} (h : storeLookup st k = some v) :
    (k, v) ∈ st := by
  induction st with
  | nil => simp [storeLookup] at h
  | cons p rest ih =>
    obtain ⟨k', v'⟩ := p
    simp only [storeLookup] at h
    by_cases he : k' = k
    · rw [if_pos he] at h
      cases h
      rw [← he]
      exact List.mem_cons_self _ _
    · rw [if_neg he] at h
      exact List.mem_cons_of_mem _ (ih h)

lemma storeSet_of_lookup_eq {st : OStore} {k v : List Nat}
    (h : storeLookup st k = some v) : storeSet st k v = st := by
  induction st with
  | nil => simp [storeLookup] at h
  | cons p rest ih =>
    obtain ⟨k', v'⟩ := p
    simp only [storeLookup] at h
    simp only [storeSet]
    by_cases he : k' = k
    · rw [if_pos he] at h
      rw [if_pos he]
      cases h
      rw [he]
    · rw [if_neg he] at h
      rw [if_neg he, ih h]

lemma storeSet_of_lookup_none {st : OStore} {k : List Nat}
    (h : storeLookup st k = none) (v : List Nat) :
    storeSet st k v = st ++ [(k, v)] := by
  induction st with
  | nil => rfl
  | cons p rest ih =>
    obtain ⟨k', v'⟩ := p
    simp only [storeLookup] at h
    simp only [storeSet]
    by_cases he : k' = k
    · rw [if_pos he] at h
      exact absurd h (by simp)
    · rw [if_neg he] at h
      rw [if_neg he, ih h, List.cons_append]

lemma storeLookup_append_right {st : OStore} {k : List Nat}
    (h : storeLookup st k = none) (l : OStore) :
    storeLookup (st ++ l) k = storeLookup l k := by
  induction st with
  | nil => rfl
  | cons p rest ih =>
    obtain ⟨k', v'⟩ := p
    simp only [storeLookup] at h
    by_cases he : k' = k
    · rw [if_pos he] at h
      exact absurd h (by simp)
    · rw [if_neg he] at h
      rw [List.cons_append]
      simp only [storeLookup]
      rw [if_neg he]
      exact ih h

lemma storeSet_length_le (st : OStore) (k v : List Nat) :
    (storeSet st k v).length ≤ st.length + 1 := by
  induction st with
  | nil => simp [storeSet]
  | cons p rest ih =>
    obtain ⟨k', v'⟩ := p
    simp only [storeSet]
    by_cases he : k' = k
    · rw [if_pos he]
      simp
    · rw [if_neg he]
      simp only [List.length_cons]
      omega

lemma blobFrame_ne_deltaFrame (c b d : List Nat) : blobFrame c ≠ deltaFrame b d := by
  intro he
  have h98 : (blobFrame c).headD 0 = 98 := rfl
  have h100 : (deltaFrame b d).headD 0 = 100 := rfl
  rw [he, h100] at h98
  exact absurd h98 (by norm_num)

lemma splitAtNul_cons (b : Nat) (l : List Nat) (hb : b ≠ 0) :
    splitAtNul (b :: l) = (splitAtNul l).map (fun p => (b :: p.1, p.2)) := by
  cases b with
  | zero => exact absurd rfl hb
  | succ n => rfl

lemma fsoStep_delta_skip (content : List Nat)
    (acc : Option (List Nat × List Nat) × Nat × Nat) (k b d : List Nat) :
    fsoStep content acc (k, modelCompress (deltaFrame b d)) = acc := by
  have hdec : modelDecompress (modelCompress (deltaFrame b d)) = deltaFrame b d := rfl
  simp only [fsoStep, hdec]
  have hshape : deltaFrame b d =
      100 :: 101 :: 108 :: 116 :: 97 :: 32 ::
        (b ++ [32] ++ decDigits d.length ++ [0] ++ d) := rfl
  rw [hshape]
  rw [splitAtNul_cons 100 _ (by norm_num), splitAtNul_cons 101 _ (by norm_num),
    splitAtNul_cons 108 _ (by norm_num), splitAtNul_cons 116 _ (by norm_num),
    splitAtNul_cons 97 _ (by norm_num), splitAtNul_cons 32 _ (by norm_num)]
  cases hsp : splitAtNul (b ++ [32] ++ decDigits d.length ++ [0] ++ d) with
  | none => simp
  | some p => simp [List.isPrefixOf]

lemma fso_append_delta (st : OStore) (content k b d : List Nat) :
    findSimilarObject (st ++ [(k, modelCompress (deltaFrame b d))]) content =
      findSimilarObject st content := by
  simp only [findSimilarObject, List.foldl_append, List.foldl_cons, List.foldl_nil,
    fsoStep_delta_skip]

/-- **C5.**  Writing the same blob content twice, from any
content-addressed store and for any injective digest: the two calls of
`hashAndWriteBlob` return the same object id, the second call leaves
the store exactly as the first left it (no second file), and the first
call adds at most one entry — so at most one on-disk object file holds
the content.  Covers the early-exists path, the full-blob path and the
delta path (whose object is invisible to `findSimilarObject`, which
skips every non-`"blob "` frame). -/
theorem c5_blob_dedup (h : List Nat → List Nat) (hinj : Function.Injective h)
    (st : OStore) (hwf : StoreWF h st) (content : List Nat) :
    (hashAndWriteBlob h (hashAndWriteBlob h st content).2 content).1 =
        (hashAndWriteBlob h st content).1 ∧
    (hashAndWriteBlob h (hashAndWriteBlob h st content).2 content).2 =
        (hashAndWriteBlob h st content).2 ∧
    (hashAndWriteBlob h st content).2.length ≤ st.length + 1 := by
  cases hex : storeLookup st (h (blobFrame content)) with
  | some v =>
    have hr1 : hashAndWriteBlob h st content = (h (blobFrame content), st) := by
      simp only [hashAndWriteBlob, hex]
    have h1 : (hashAndWriteBlob h st content).1 = h (blobFrame content) := by rw [hr1]
    have h2 : (hashAndWriteBlob h st content).2 = st := by rw [hr1]
    rw [h1, h2, hr1]
    exact ⟨rfl, rfl, by omega⟩
  | none =>
    cases hfso : findSimilarObject st content with
    | none =>
      have hr1 : hashAndWriteBlob h st content =
          (h (blobFrame content),
            st ++ [(h (blobFrame content), modelCompress (blobFrame content))]) := by
        simp only [hashAndWriteBlob, hex, hfso]
        rw [storeSet_of_lookup_none hex]
      have h1 : (hashAndWriteBlob h st content).1 = h (blobFrame content) := by rw [hr1]
      have h2 : (hashAndWriteBlob h st content).2 =
          st ++ [(h (blobFrame content), modelCompress (blobFrame content))] := by
        rw [hr1]
      have hlk2 : storeLookup
          (st ++ [(h (blobFrame content), modelCompress (blobFrame content))])
          (h (blobFrame content)) = some (modelCompress (blobFrame content)) := by
        rw [storeLookup_append_right hex]
        simp [storeLookup]
      have hr2 : hashAndWriteBlob h
          (st ++ [(h (blobFrame content), modelCompress (blobFrame content))]) content =
          (h (blobFrame content),
            st ++ [(h (blobFrame content), modelCompress (blobFrame content))]) := by
        simp only [hashAndWriteBlob, hlk2]
      rw [h1, h2]
      exact ⟨by rw [hr2], by rw [hr2], by simp⟩
    | some p =>
      obtain ⟨baseId, baseContent⟩ := p
      by_cases hsmall :
          (computeDelta baseContent content).length < content.length * 9 / 10
      · cases hlkd :
            storeLookup st (h (deltaFrame baseId (computeDelta baseContent content))) with
        | some v0 =>
          obtain ⟨frame, hv, hk⟩ := hwf _ (storeLookup_mem hlkd)
          have hv' : v0 = modelCompress frame := hv
          have hfr : deltaFrame baseId (computeDelta baseContent content) = frame :=
            hinj hk
          have hlkd' : storeLookup st
              (h (deltaFrame baseId (computeDelta baseContent content))) =
              some (modelCompress
                (deltaFrame baseId (computeDelta baseContent content))) := by
            rw [hlkd, hv', hfr]
          have hr1 : hashAndWriteBlob h st content =
              (h (deltaFrame baseId (computeDelta baseContent content)), st) := by
            simp only [hashAndWriteBlob, hex, hfso]
            rw [if_pos hsmall, storeSet_of_lookup_eq hlkd']
          have h1 : (hashAndWriteBlob h st content).1 =
              h (deltaFrame baseId (computeDelta baseContent content)) := by rw [hr1]
          have h2 : (hashAndWriteBlob h st content).2 = st := by rw [hr1]
          rw [h1, h2, hr1]
          exact ⟨rfl, rfl, by omega⟩
        | none =>
          have hr1 : hashAndWriteBlob h st content =
              (h (deltaFrame baseId (computeDelta baseContent content)),
                st ++ [(h (deltaFrame baseId (computeDelta baseContent content)),
                  modelCompress
                    (deltaFrame baseId (computeDelta baseContent content)))]) := by
            simp only [hashAndWriteBlob, hex, hfso]
            rw [if_pos hsmall, storeSet_of_lookup_none hlkd]
          have h1 : (hashAndWriteBlob h st content).1 =
              h (deltaFrame baseId (computeDelta baseContent content)) := by rw [hr1]
          have h2 : (hashAndWriteBlob h st content).2 =
              st ++ [(h (deltaFrame baseId (computeDelta baseContent content)),
                modelCompress (deltaFrame baseId (computeDelta baseContent content)))] := by
            rw [hr1]
          have hne : h (blobFrame content) ≠
              h (deltaFrame baseId (computeDelta baseContent content)) := by
            intro heq
            exact blobFrame_ne_deltaFrame content baseId
              (computeDelta baseContent content) (hinj heq)
          have hlk2 : storeLookup
              (st ++ [(h (deltaFrame baseId (computeDelta baseContent content)),
                modelCompress (deltaFrame baseId (computeDelta baseContent content)))])
              (h (blobFrame content)) = none := by
            rw [storeLookup_append_right hex]
            simp only [storeLookup]
            rw [if_neg (Ne.symm hne)]
          have hfso2 : findSimilarObject
              (st ++ [(h (deltaFrame baseId (computeDelta baseContent content)),
                modelCompress (deltaFrame baseId (computeDelta baseContent content)))])
              content = some (baseId, baseContent) := by
            rw [fso_append_delta, hfso]
          have hlkd2 : storeLookup
              (st ++ [(h (deltaFrame baseId (computeDelta baseContent content)),
                modelCompress (deltaFrame baseId (computeDelta baseContent content)))])
              (h (deltaFrame baseId (computeDelta baseContent content))) =
              some (modelCompress
                (deltaFrame baseId (computeDelta baseContent content))) := by
            rw [storeLookup_append_right hlkd]
            simp [storeLookup]
          have hr2 : hashAndWriteBlob h
              (st ++ [(h (deltaFrame baseId (computeDelta baseContent content)),
                modelCompress (deltaFrame baseId (computeDelta baseContent content)))])
              content =
              (h (deltaFrame baseId (computeDelta baseContent content)),
                st ++ [(h (deltaFrame baseId (computeDelta baseContent content)),
                  modelCompress
                    (deltaFrame baseId (computeDelta baseContent content)))]) := by
            simp only [hashAndWriteBlob, hlk2, hfso2]
            rw [if_pos hsmall, storeSet_of_lookup_eq hlkd2]
          rw [h1, h2]
          exact ⟨by rw [hr2], by rw [hr2], by simp⟩
      · have hr1 : hashAndWriteBlob h st content =
            (h (blobFrame content),
              st ++ [(h (blobFrame content), modelCompress (blobFrame content))]) := by
          simp only [hashAndWriteBlob, hex, hfso]
          rw [if_neg hsmall, storeSet_of_lookup_none hex]
        have h1 : (hashAndWriteBlob h st content).1 = h (blobFrame content) := by rw [hr1]
        have h2 : (hashAndWriteBlob h st content).2 =
            st ++ [(h (blobFrame content), modelCompress (blobFrame content))] := by
          rw [hr1]
        have hlk2 : storeLookup
            (st ++ [(h (blobFrame content), modelCompress (blobFrame content))])
            (h (blobFrame content)) = some (modelCompress (blobFrame content)) := by
          rw [storeLookup_append_right hex]
          simp [storeLookup]
        have hr2 : hashAndWriteBlob h
            (st ++ [(h (blobFrame content), modelCompress (blobFrame content))]) content =
            (h (blobFrame content),
              st ++ [(h (blobFrame content), modelCompress (blobFrame content))]) := by
          simp only [hashAndWriteBlob, hlk2]
        rw [h1, h2]
        exact ⟨by rw [hr2], by rw [hr2], by simp⟩

/-- Witness for C5: the identity digest, the empty store and a
three-byte blob. -/
theorem c5_blob_dedup_witness :
    (hashAndWriteBlob (fun l => l)
        (hashAndWriteBlob (fun l => l) [] [1, 2, 3]).2 [1, 2, 3]).1 =
      (hashAndWriteBlob (fun l => l) [] [1, 2, 3]).1 ∧
    (hashAndWriteBlob (fun l => l)
        (hashAndWriteBlob (fun l => l) [] [1, 2, 3]).2 [1, 2, 3]).2 =
      (hashAndWriteBlob (fun l => l) [] [1, 2, 3]).2 ∧
    (hashAndWriteBlob (fun l => l) [] [1, 2, 3]).2.length ≤
      ([] : OStore).length + 1 :=
  c5_blob_dedup (fun l => l) (fun a b hab => hab) []
    (fun p hp => absurd hp (List.not_mem_nil p)) [1, 2, 3]

/-- **C4** (code bug evidence).  On a store holding one loose blob
object, the pack loop writes the object's decompressed framed bytes
(`readObject` output), not its raw on-disk bytes, and the index file
holds only the 8-byte big-endian offset — the sha never reaches it,
because `binary.Write` rejects a Go string and the error is ignored. -/
theorem c4_pack_diverges :
    packObjectsM [([170], modelCompress (blobFrame [7, 8, 9]))] 1 =
      some ([80, 65, 67, 75] ++ u32be 2 ++ u32be 1 ++ blobFrame [7, 8, 9], u64be 12) ∧
    blobFrame [7, 8, 9] ≠ modelCompress (blobFrame [7, 8, 9]) := by
  decide

/-- Witness for C10 at a concrete bad-parse input. -/
theorem c10_snapshot_reset_witness :
    storeSnapshot (some "garbage") (fun _ => none) "id1" "c0ffee" "first" "2025-01-01T00:00:00Z" =
      [("id1", Snapshot.mk "c0ffee" "first" "2025-01-01T00:00:00Z")] :=
  c10_snapshot_reset (some "garbage") (fun _ => none) "id1" "c0ffee" "first"
    "2025-01-01T00:00:00Z" (Or.inr ⟨"garbage", rfl, rfl⟩)

end NutellaDB
